import Mathlib

/-!
Verification development for the logs-sender-api ingestion pipeline.

The definitions below are a shallow embedding of the TypeScript source:
the sanitizer (both the older variant and the current `app/lib/sanitizer`
variant), the Telegram relay client (`app/lib/telegram`), the in-memory
rate limiter (`app/lib/ratelimit`), and the `POST /api/[chat_id]/upload`
handler.  JavaScript strings are modelled as Lean `String`/`List Char`;
JS regex global replace is modelled as a leftmost scan that, at each
position, either takes the (deterministic, for these particular patterns)
match and emits the replacement, or copies one character and moves on.
-/

/-! ## Character classes used by the sanitizer regexes -/

/-- JS `\s` (whitespace) restricted to the characters that can actually
interact with these patterns; members of the regex character classes below
are never whitespace. -/
def isSpaceJS (c : Char) : Bool :=
  c = ' ' || c = '\t' || c = '\n' || c = '\r' || c = '\x0b' || c = '\x0c' || c = Char.ofNat 160

/-- The class `[a-zA-Z0-9-]` from the URL regexes. -/
def isDomChar (c : Char) : Bool :=
  ('a' ≤ c && c ≤ 'z') || ('A' ≤ c && c ≤ 'Z') || ('0' ≤ c && c ≤ '9') || c = '-'

/-- The class `[a-zA-Z]`. -/
def isAlphaChar (c : Char) : Bool :=
  ('a' ≤ c && c ≤ 'z') || ('A' ≤ c && c ≤ 'Z')

/-- JS `\w` (equivalently `[\w\d_]`): ASCII letters, digits, underscore. -/
def isWordChar (c : Char) : Bool :=
  isAlphaChar c || ('0' ≤ c && c ≤ '9') || c = '_'

/-- Length of the maximal run of characters satisfying `f` at the head of
the list; models a greedy `X+`/`X*` whose continuation is outside the
class (so no backtracking can shrink it). -/
def runLen (f : Char → Bool) (xs : List Char) : Nat :=
  (xs.takeWhile f).length

/-- Greedy `[^\s]+` length. -/
def nonspaceRun (xs : List Char) : Nat :=
  runLen (fun c => !isSpaceJS c) xs

/-- Literal-pattern test: `leadsWith p xs` iff `p` is an initial segment
of `xs` (case-sensitive). -/
def leadsWith : List Char → List Char → Bool
  | [], _ => true
  | _ :: _, [] => false
  | a :: p, b :: xs => a = b && leadsWith p xs

/-- ASCII lowercasing (JS `toLowerCase` restricted to the ASCII range,
which is all these patterns compare). -/
def asciiLower (c : Char) : Char :=
  if 'A' ≤ c && c ≤ 'Z' then Char.ofNat (c.toNat + 32) else c

/-- ASCII-lowercased string. -/
def lowerStr (s : String) : String :=
  String.mk (s.data.map asciiLower)

/-- JS `String.prototype.trim`: strip whitespace from both ends. -/
def jsTrim (s : String) : String :=
  String.mk (((s.data.dropWhile isSpaceJS).reverse.dropWhile isSpaceJS).reverse)

/-- Case-insensitive variant (the current sanitizer regex carries the `i`
flag); the pattern `p` is given in lowercase. -/
def leadsWithCI : List Char → List Char → Bool
  | [], _ => true
  | _ :: _, [] => false
  | a :: p, b :: xs => asciiLower b = a && leadsWithCI p xs

/-! ## Older sanitizer variant (`sanitizeContent`, earlier `sanitizer.ts`)

URL regex: `(https?:\/\/[^\s]+)|(www\.[^\s]+)|([a-zA-Z0-9-]+\.[a-zA-Z0-9-]+\.[a-zA-Z]{2,})`
with the `g` flag; mention regex: `@[\w\d_]+` with the `g` flag.
Each `matchXxx` returns the length of the (unique greedy) match of one
alternative at the head of the list, or `none`. -/

/-- Alternative `https?:\/\/[^\s]+` at the head of the input. -/
def matchHttp (xs : List Char) : Option Nat :=
  if leadsWith "https://".data xs then
    if nonspaceRun (xs.drop 8) = 0 then none else some (8 + nonspaceRun (xs.drop 8))
  else if leadsWith "http://".data xs then
    if nonspaceRun (xs.drop 7) = 0 then none else some (7 + nonspaceRun (xs.drop 7))
  else none

/-- Alternative `www\.[^\s]+` at the head of the input. -/
def matchWww (xs : List Char) : Option Nat :=
  if leadsWith "www.".data xs then
    if nonspaceRun (xs.drop 4) = 0 then none else some (4 + nonspaceRun (xs.drop 4))
  else none

/-- Does the list start with a literal `.`? -/
def headIsDot (xs : List Char) : Bool :=
  match xs with
  | '.' :: _ => true
  | _ => false

/-- Third segment of the dotted-domain alternative: `[a-zA-Z]{2,}` after
the second dot; `r1`, `r2` are the lengths of the first two runs. -/
def matchDomainTail3 (zs : List Char) (r1 r2 : Nat) : Option Nat :=
  if runLen isAlphaChar zs < 2 then none
  else some (r1 + 1 + r2 + 1 + runLen isAlphaChar zs)

/-- Second segment: `[a-zA-Z0-9-]+\.` after the first dot. -/
def matchDomainTail2 (ys : List Char) (r1 : Nat) : Option Nat :=
  if runLen isDomChar ys = 0 then none
  else if headIsDot (ys.drop (runLen isDomChar ys)) then
    matchDomainTail3 ((ys.drop (runLen isDomChar ys)).tail) r1 (runLen isDomChar ys)
  else none

/-- Alternative `[a-zA-Z0-9-]+\.[a-zA-Z0-9-]+\.[a-zA-Z]{2,}` at the head
of the input.  `.` lies outside both classes, so the greedy `+` runs are
maximal with no backtracking. -/
def matchDomain (xs : List Char) : Option Nat :=
  if runLen isDomChar xs = 0 then none
  else if headIsDot (xs.drop (runLen isDomChar xs)) then
    matchDomainTail2 ((xs.drop (runLen isDomChar xs)).tail) (runLen isDomChar xs)
  else none

/-- The whole URL regex of the older sanitizer: ordered alternation. -/
def matchUrlAt (xs : List Char) : Option Nat :=
  match matchHttp xs with
  | some n => some n
  | none =>
    match matchWww xs with
    | some n => some n
    | none => matchDomain xs

/-- Mention regex `@[\w\d_]+` of the older sanitizer (one or more word
characters). -/
def matchMentionAt (xs : List Char) : Option Nat :=
  match xs with
  | [] => none
  | c :: rest =>
    if c = '@' then
      if runLen isWordChar rest = 0 then none else some (1 + runLen isWordChar rest)
    else none

/-- Replacement text for URL matches. -/
def linkRemoved : List Char := "[LINK REMOVED]".data

/-- Replacement text for mention matches. -/
def mentionRemoved : List Char := "[MENTION REMOVED]".data

/-- One pass of JS `String.replace` with a global regex, as a leftmost
scan.  The first argument is the number of input characters still to be
skipped because they were part of the match just replaced. -/
def scanAux (m : List Char → Option Nat) (r : List Char) : Nat → List Char → List Char
  | _, [] => []
  | k + 1, _ :: rest => scanAux m r k rest
  | 0, c :: rest =>
    match m (c :: rest) with
    | some n => r ++ scanAux m r (n - 1) rest
    | none => c :: scanAux m r 0 rest

/-- Global replace of every leftmost match of `m` by `r`. -/
def scanRepl (m : List Char → Option Nat) (r : List Char) (xs : List Char) : List Char :=
  scanAux m r 0 xs

/-- `text.replace(urlRegex, '[LINK REMOVED]')` for the older variant. -/
def urlScan (xs : List Char) : List Char := scanRepl matchUrlAt linkRemoved xs

/-- `text.replace(mentionRegex, '[MENTION REMOVED]')` for the older variant. -/
def mentionScan (xs : List Char) : List Char := scanRepl matchMentionAt mentionRemoved xs

/-- Older `sanitizeContent`: guard `if (!text) return text;` then replace
URLs, then replace mentions. -/
def sanitizeContent (s : String) : String :=
  if s.isEmpty then s else String.mk (mentionScan (urlScan s.data))

/-! ## Current sanitizer variant (`app/lib/sanitizer.ts`)

URL regex (flags `gi`):
`(https?:\/\/[^\s]+)|(www\.[^\s]+)|((?:t|telegram)\.me\/[^\s]+)|([a-zA-Z0-9-]+\.(?:com|org|net|io|me|xyz|biz|info)(?=\s|$|\/))`
mention regex: `@[\w\d_]{3,}` (flag `g`). -/

/-- Case-insensitive `https?:\/\/[^\s]+`. -/
def matchHttpCI (xs : List Char) : Option Nat :=
  if leadsWithCI "https://".data xs then
    if nonspaceRun (xs.drop 8) = 0 then none else some (8 + nonspaceRun (xs.drop 8))
  else if leadsWithCI "http://".data xs then
    if nonspaceRun (xs.drop 7) = 0 then none else some (7 + nonspaceRun (xs.drop 7))
  else none

/-- Case-insensitive `www\.[^\s]+`. -/
def matchWwwCI (xs : List Char) : Option Nat :=
  if leadsWithCI "www.".data xs then
    if nonspaceRun (xs.drop 4) = 0 then none else some (4 + nonspaceRun (xs.drop 4))
  else none

/-- Case-insensitive `(?:t|telegram)\.me\/[^\s]+`.  The two literal heads
are mutually exclusive so alternation order does not matter here. -/
def matchTme (xs : List Char) : Option Nat :=
  if leadsWithCI "t.me/".data xs then
    if nonspaceRun (xs.drop 5) = 0 then none else some (5 + nonspaceRun (xs.drop 5))
  else if leadsWithCI "telegram.me/".data xs then
    if nonspaceRun (xs.drop 12) = 0 then none else some (12 + nonspaceRun (xs.drop 12))
  else none

/-- The TLD literals of the fourth alternative, in regex order. -/
def tldList : List (List Char) :=
  ["com".data, "org".data, "net".data, "io".data, "me".data, "xyz".data, "biz".data, "info".data]

/-- The lookahead `(?=\s|$|\/)`: zero-width, succeeds at end of input, a
whitespace character, or a slash. -/
def lookaheadOk (xs : List Char) : Bool :=
  match xs with
  | [] => true
  | c :: _ => isSpaceJS c || c = '/'

/-- Try the TLD alternatives in order at the head of `xs`; the match
length excludes the lookahead character. -/
def matchTld : List (List Char) → List Char → Option Nat
  | [], _ => none
  | t :: ts, xs =>
    if leadsWithCI t xs && lookaheadOk (xs.drop t.length) then some t.length
    else matchTld ts xs

/-- Alternative `[a-zA-Z0-9-]+\.(?:com|...|info)(?=\s|$|\/)`. -/
def matchDomainTld (xs : List Char) : Option Nat :=
  if runLen isDomChar xs = 0 then none
  else
    match xs.drop (runLen isDomChar xs) with
    | '.' :: ys =>
      match matchTld tldList ys with
      | some t => some (runLen isDomChar xs + 1 + t)
      | none => none
    | _ => none

/-- Whole URL regex of the current sanitizer: ordered alternation. -/
def matchUrlAtCurrent (xs : List Char) : Option Nat :=
  match matchHttpCI xs with
  | some n => some n
  | none =>
    match matchWwwCI xs with
    | some n => some n
    | none =>
      match matchTme xs with
      | some n => some n
      | none => matchDomainTld xs

/-- Mention regex `@[\w\d_]{3,}` of the current sanitizer. -/
def matchMentionAtCurrent (xs : List Char) : Option Nat :=
  match xs with
  | [] => none
  | c :: rest =>
    if c = '@' then
      if runLen isWordChar rest < 3 then none else some (1 + runLen isWordChar rest)
    else none

/-- Current `sanitizeContent` (named apart to distinguish the two source
revisions): URLs then mentions. -/
def sanitizeContentCurrent (s : String) : String :=
  if s.isEmpty then s
  else String.mk (scanRepl matchMentionAtCurrent mentionRemoved
    (scanRepl matchUrlAtCurrent linkRemoved s.data))

/-! ## Telegram relay client (`app/lib/telegram.ts`) -/

/-- `escapeHtml`: three sequential global single-character replaces,
`&` first, then `<`, then `>`. -/
def replaceChar (c : Char) (repl : List Char) (xs : List Char) : List Char :=
  xs.flatMap (fun x => if x = c then repl else [x])

/-- HTML escaping used for the `<pre>` body of the formatted message. -/
def escapeHtml (s : String) : String :=
  String.mk (replaceChar '>' "&gt;".data
    (replaceChar '<' "&lt;".data
      (replaceChar '&' "&amp;".data s.data)))

/-- A `File`/`Blob` as far as the pipeline observes it: a name and a byte
size (contents are opaque to the control flow). -/
structure FilePart where
  name : String
  size : Nat
deriving DecidableEq, Repr

/-- The value passed to `sendLogs` as `content`. -/
inductive LogContent where
  | str (s : String)
  | file (f : FilePart)
deriving DecidableEq, Repr

/-- What `sendDocument` receives as its document argument: either a fresh
`Blob` built from oversized text, or the caller's `File`/`Blob`. -/
inductive DocSource where
  | blobOfText (s : String)
  | filePart (f : FilePart)
deriving DecidableEq, Repr

/-- The Telegram API call `sendLogs` decides to make. -/
inductive SendAction where
  | sendMessage (chatId : String) (text : String) (parseMode : String)
  | sendDocument (chatId : String) (doc : DocSource) (filename : String) (caption : Option String)
deriving DecidableEq, Repr

/-- The 4000-character cutoff (`MAX_MESSAGE_LENGTH`) of `sendLogs`. -/
def maxMessageLength : Nat := 4000

/-- The formatted HTML message for the short-text path: caption bolded if
truthy (JS `caption ? ... : ...`, so the empty string counts as absent),
body escaped inside `<pre>`. -/
def formatMessage (caption : Option String) (content : String) : String :=
  match caption with
  | some c =>
    if c = "" then "<pre>" ++ escapeHtml content ++ "</pre>"
    else "<b>" ++ c ++ "</b>\n\n<pre>" ++ escapeHtml content ++ "</pre>"
  | none => "<pre>" ++ escapeHtml content ++ "</pre>"

/-- `sendLogs(chatId, content, filename, caption)`: strings of length at
most 4000 go out as one formatted HTML message; longer strings become a
text blob sent as a document; files/blobs are sent as documents. -/
def sendLogs (chatId : String) (content : LogContent) (filename : String)
    (caption : Option String) : SendAction :=
  match content with
  | .str s =>
    if s.length ≤ maxMessageLength then
      .sendMessage chatId (formatMessage caption s) "HTML"
    else
      .sendDocument chatId (.blobOfText s) filename caption
  | .file f => .sendDocument chatId (.filePart f) filename caption

/-! ## Rate limiter (`app/lib/ratelimit.ts`)

The private `Map<string, RateLimitEntry>` is modelled as an association
list threaded functionally; `check` returns the updated map alongside the
`allowed`/`remaining` result. -/

structure RateLimitEntry where
  count : Nat
  firstRequest : Nat
deriving DecidableEq, Repr

/-- The limiter's key-value store. -/
abbrev LimiterMap := List (String × RateLimitEntry)

/-- `Map.get`. -/
def lookupEntry : LimiterMap → String → Option RateLimitEntry
  | [], _ => none
  | (k, v) :: rest, key => if k = key then some v else lookupEntry rest key

/-- `Map.set` (replace or append). -/
def setEntry : LimiterMap → String → RateLimitEntry → LimiterMap
  | [], key, v => [(key, v)]
  | (k, w) :: rest, key, v =>
    if k = key then (key, v) :: rest else (k, w) :: setEntry rest key v

/-- Result of `RateLimiter.check` together with the updated map. -/
structure CheckOutcome where
  allowed : Bool
  remaining : Nat
  state : LimiterMap
deriving DecidableEq, Repr

namespace RateLimiter

/-- `RateLimiter.check(key)` at time `now`, for a limiter constructed
with `windowMs` and `maxRequests`.  Timestamps are naturals; JS
`now - entry.firstRequest > windowMs` with `now ≥ firstRequest` agrees
with truncated subtraction. -/
def check (windowMs maxRequests : Nat) (st : LimiterMap) (key : String) (now : Nat) :
    CheckOutcome :=
  match lookupEntry st key with
  | none => ⟨true, maxRequests - 1, setEntry st key ⟨1, now⟩⟩
  | some e =>
    if now - e.firstRequest > windowMs then
      ⟨true, maxRequests - 1, setEntry st key ⟨1, now⟩⟩
    else if e.count ≥ maxRequests then
      ⟨false, 0, st⟩
    else
      ⟨true, maxRequests - (e.count + 1), setEntry st key ⟨e.count + 1, e.firstRequest⟩⟩

/-- The periodic sweep: delete entries whose window has expired. -/
def cleanup (windowMs : Nat) (st : LimiterMap) (now : Nat) : LimiterMap :=
  st.filter (fun kv => !(now - kv.2.firstRequest > windowMs))

end RateLimiter

/-- A sequence of `check` calls for one key, returning each call's
`(allowed, remaining)` and the final map; the exported singleton uses
`windowMs = 60000`, `maxRequests = 10`. -/
def runChecks (windowMs maxRequests : Nat) (key : String) :
    LimiterMap → List Nat → List (Bool × Nat) × LimiterMap
  | st, [] => ([], st)
  | st, t :: ts =>
    let c := RateLimiter.check windowMs maxRequests st key t
    let r := runChecks windowMs maxRequests key c.state ts
    ((c.allowed, c.remaining) :: r.1, r.2)

/-! ## Audit records (`app/lib/database.ts`) and the upload handler
(`app/api/[chat_id]/upload/route.ts`)

The handler builds a `Partial<LogEntry>` by mutation; we model it as a
record of optional fields updated step by step in source order.  Database
and network effects are resolved through an `Env` of oracles: whether the
bot token is configured, the blocked-IP set, the stored panic-mode flag,
the outcome of the `sendLogs` call, whether `saveLog` throws, and the
geolocation result awaited from `geoPromise`. -/

inductive ContentKind where
  | file
  | text
deriving DecidableEq, Repr

inductive LogStatus where
  | success
  | failed
deriving DecidableEq, Repr

/-- `Partial<LogEntry>` as mutated by the handler. -/
structure LogRecord where
  chatId : Option String := none
  filename : Option String := none
  contentType : Option ContentKind := none
  contentSize : Option Nat := none
  caption : Option String := none
  ip : String
  country : Option String := none
  countryCode : Option String := none
  city : Option String := none
  latitude : Option Int := none
  longitude : Option Int := none
  userAgent : Option String := none
  status : Option LogStatus := none
  errorMessage : Option String := none
  createdAt : Nat
deriving DecidableEq, Repr

/-- Geolocation data awaited from `getGeoLocation(ip)`; that function
never rejects (it catches internally), so it is a plain value here.
Latitude/longitude are carried opaquely (never computed on). -/
structure GeoLocation where
  ip : String
  country : Option String := none
  countryCode : Option String := none
  city : Option String := none
  latitude : Option Int := none
  longitude : Option Int := none
deriving DecidableEq, Repr

/-- The parsed request body, already dispatched on the `content-type`
header (`includes` checks, in source order: multipart, json, plain, else
unsupported).  `parseError` models `formData()`/`json()`/`text()`
throwing, which lands in the handler's top-level catch. -/
inductive RequestBody where
  | formData (file : Option FilePart) (text : Option String)
      (caption : Option String) (filename : Option String)
  | json (text : Option String) (caption : Option String) (filename : Option String)
  | plainText (body : String)
  | unsupported
  | parseError (msg : String)
deriving DecidableEq, Repr

/-- An upload request after `getClientIP` has been applied to the
headers. -/
structure UploadRequest where
  chatId : String
  ip : String
  userAgent : Option String
  body : RequestBody
deriving DecidableEq, Repr

/-- Outcome of the `await sendLogs(...)` call: Telegram answered
`ok: true`, answered `ok: false` with an optional `description`, or the
call threw (network failure). -/
inductive RelayOutcome where
  | ok
  | failed (description : Option String)
  | thrown (msg : String)
deriving DecidableEq, Repr

/-- External state and effect oracles for one request. -/
structure Env where
  telegramConfigured : Bool
  blockedIps : List String
  panicMode : Bool
  relay : RelayOutcome
  saveFails : Bool
  geo : GeoLocation
  nowIso : String
deriving DecidableEq, Repr

/-- The JSON body of a `NextResponse` plus its HTTP status. -/
structure HttpResponse where
  status : Nat
  success : Bool
  message : String
  error : Option String
deriving DecidableEq, Repr

/-- Everything observable about one handler run: the response, the list
of log entries actually persisted by `saveLog` (empty or a singleton),
the rate limiter map after the run, the `sendLogs` call made (if any),
and the final value of the in-memory `logEntry` (if it was created). -/
structure HandlerResult where
  response : HttpResponse
  savedLogs : List LogRecord
  limiter : LimiterMap
  relayAction : Option SendAction
  finalLog : Option LogRecord
deriving DecidableEq, Repr

/-- JS `a || "default"` for an optional string (both `undefined` and the
empty string fall through to the default). -/
def orElseStr (o : Option String) (d : String) : String :=
  match o with
  | some s => if s = "" then d else s
  | none => d

/-- `'.log', '.txt', '.zip'`. -/
def allowedExtensions : List String := [".log", ".txt", ".zip"]

/-- Rightmost suffix beginning with `'.'`, if any dot occurs. -/
def lastDotSuffix : List Char → Option (List Char)
  | [] => none
  | c :: rest =>
    match lastDotSuffix rest with
    | some s => some s
    | none => if c = '.' then some (c :: rest) else none

/-- `filename.toLowerCase().substring(filename.lastIndexOf('.'))`: when
there is no dot, `lastIndexOf` is `-1` and JS `substring(-1)` clamps to
`0`, yielding the whole (lowercased) name. -/
def extOf (fname : String) : String :=
  match lastDotSuffix (lowerStr fname).data with
  | some s => String.mk s
  | none => lowerStr fname

/-- Result of the content-type dispatch and validation section of the
handler (lines parsing `formData`/`json`/`text`).  A `reject` carries the
short message stored into `logEntry.errorMessage`, the `error` string of
the 400 response, and the value `logEntry.contentType` has at that point
(some rejects happen after it was assigned). -/
inductive ParseResult where
  | ok (content : LogContent) (filename : String) (caption : Option String)
      (contentSize : Nat) (kind : ContentKind)
  | reject (logMsg : String) (respMsg : String) (kindSet : Option ContentKind)
  | thrown (msg : String)
deriving DecidableEq, Repr

/-- `MAX_SIZE = 18 * 1024 * 1024`. -/
def maxUploadSize : Nat := 18 * 1024 * 1024

/-- The multipart branch once the `file`/`text` fields are in hand. -/
def parseFormData (fileOpt : Option FilePart) (textOpt : Option String)
    (captionOpt : Option String) (filenameOpt : Option String) : ParseResult :=
  let defaultName := match filenameOpt with
    | some fn => if fn = "" then "logs.txt" else fn
    | none => "logs.txt"
  let fileBig : FilePart → ParseResult := fun f =>
    if f.size > maxUploadSize then
      .reject "File too large" "File size exceeds 18MB limit" none
    else
      let fname := match filenameOpt with
        | some fn => if fn = "" then (if f.name = "" then "logs.txt" else f.name) else fn
        | none => if f.name = "" then "logs.txt" else f.name
      if allowedExtensions.contains (extOf fname) then
        .ok (.file f) fname captionOpt f.size .file
      else
        .reject "Unsupported file type" "Only .log, .txt, and .zip files are allowed"
          (some .file)
  let textBranch : ParseResult :=
    match textOpt with
    | some t =>
      if t = "" ∨ jsTrim t = "" then
        .reject "No content provided"
          "Either 'file' or 'text' must be provided in the form data" none
      else .ok (.str t) defaultName captionOpt t.utf8ByteSize .text
    | none =>
      .reject "No content provided"
        "Either 'file' or 'text' must be provided in the form data" none
  match fileOpt with
  | some f => if f.size > 0 then fileBig f else textBranch
  | none => textBranch

/-- Content-type dispatch and validation (the `if/else if` chain over
`contentType.includes(...)`).  `new Blob([x]).size` is the UTF-8 byte
length of `x`.  Note which string each branch measures: multipart text
and JSON measure the raw text, the plain-text branch measures the
already-sanitized text. -/
def parseBody (body : RequestBody) : ParseResult :=
  match body with
  | .formData fileOpt textOpt captionOpt filenameOpt =>
    parseFormData fileOpt textOpt captionOpt filenameOpt
  | .json textOpt captionOpt filenameOpt =>
    (match textOpt with
     | none => .reject "No text provided" "'text' field is required in JSON body" none
     | some t =>
       if t = "" ∨ jsTrim t = "" then
         .reject "No text provided" "'text' field is required in JSON body" none
       else
         let fname := match filenameOpt with
           | some fn => if fn = "" then "logs.txt" else fn
           | none => "logs.txt"
         .ok (.str (sanitizeContentCurrent t)) fname captionOpt t.utf8ByteSize .text)
  | .plainText b =>
    let sc := sanitizeContentCurrent b
    if sc = "" ∨ jsTrim sc = "" then
      .reject "Empty request body" "Request body cannot be empty" (some .text)
    else .ok (.str sc) "logs.txt" none sc.utf8ByteSize .text
  | .unsupported =>
    .reject "Invalid content type"
      "Content-Type must be multipart/form-data, application/json, or text/plain" none
  | .parseError m => .thrown m

/-- The top-level `catch` block: mark the entry failed with the thrown
message, copy the three geolocation fields it copies, best-effort save,
respond 500. -/
def catchPath (env : Env) (st : LimiterMap) (lg : LogRecord) (msg : String)
    (action : Option SendAction) : HandlerResult :=
  let entry := { lg with
    status := some .failed
    errorMessage := some msg
    country := env.geo.country
    countryCode := env.geo.countryCode
    city := env.geo.city }
  { response := ⟨500, false, "Internal server error", some msg⟩
    savedLogs := if env.saveFails then [] else [entry]
    limiter := st
    relayAction := action
    finalLog := some entry }

/-- The handler body from the relay call onward, given the validated
content. -/
def relayAndRespond (env : Env) (chatId : String) (st : LimiterMap) (lg : LogRecord)
    (content : LogContent) (fname : String) (cap : String) : HandlerResult :=
  let action := sendLogs chatId content fname (some cap)
  match env.relay with
  | .thrown m => catchPath env st lg m (some action)
  | .failed desc =>
    let entry := { lg with
      country := env.geo.country
      countryCode := env.geo.countryCode
      city := env.geo.city
      latitude := env.geo.latitude
      longitude := env.geo.longitude
      status := some .failed
      errorMessage := some (orElseStr desc "Telegram API error") }
    { response := ⟨502, false, "Failed to send logs to Telegram",
        some (orElseStr desc "Unknown Telegram API error")⟩
      savedLogs := if env.saveFails then [] else [entry]
      limiter := st
      relayAction := some action
      finalLog := some entry }
  | .ok =>
    let entry := { lg with
      country := env.geo.country
      countryCode := env.geo.countryCode
      city := env.geo.city
      latitude := env.geo.latitude
      longitude := env.geo.longitude
      status := some .success }
    { response := ⟨200, true, "Logs sent successfully to Telegram", none⟩
      savedLogs := if env.saveFails then [] else [entry]
      limiter := st
      relayAction := some action
      finalLog := some entry }

/-- Everything after the access gate: configuration check, chat-id
validation, body parsing, caption synthesis/sanitization, content
sanitization, relay, geolocation, persistence, response. -/
def afterGate (env : Env) (req : UploadRequest) (st : LimiterMap) (now : Nat) :
    HandlerResult :=
  let lg0 : LogRecord := { ip := req.ip, userAgent := req.userAgent, createdAt := now }
  if !env.telegramConfigured then
    { response := ⟨500, false, "Server configuration error",
        some "Telegram bot token is not configured"⟩
      savedLogs := []
      limiter := st
      relayAction := none
      finalLog := some { lg0 with
        status := some .failed
        errorMessage := some "Telegram bot token is not configured" } }
  else
    let lg1 := { lg0 with chatId := some req.chatId }
    if req.chatId = "" ∨ jsTrim req.chatId = "" then
      { response := ⟨400, false, "Invalid request",
          some "chat_id is required in the URL path"⟩
        savedLogs := []
        limiter := st
        relayAction := none
        finalLog := some { lg1 with
          status := some .failed
          errorMessage := some "chat_id is required" } }
    else
      match parseBody req.body with
      | .reject logMsg respMsg kindSet =>
        { response := ⟨400, false, "Invalid request", some respMsg⟩
          savedLogs := []
          limiter := st
          relayAction := none
          finalLog := some { lg1 with
            contentType := kindSet
            status := some .failed
            errorMessage := some logMsg } }
      | .thrown m => catchPath env st lg1 m none
      | .ok content fname capOpt csize kind =>
        let cap1 := match capOpt with
          | some c => if c = "" then "Log received at " ++ env.nowIso else c
          | none => "Log received at " ++ env.nowIso
        let cap2 := sanitizeContentCurrent cap1
        let content2 := match content with
          | .str s => LogContent.str (sanitizeContentCurrent s)
          | .file f => LogContent.file f
        let lg2 := { lg1 with
          filename := some fname
          contentType := some kind
          contentSize := some csize
          caption := some cap2 }
        relayAndRespond env req.chatId st lg2 content2 fname cap2

/-- `POST /api/[chat_id]/upload`: rate-limit check first (it increments
on allow), then the blocked-IP check, then the body.  Note that the
stored panic-mode flag (`env.panicMode`) is never consulted. -/
def handlePost (env : Env) (req : UploadRequest) (st : LimiterMap) (now : Nat) :
    HandlerResult :=
  let c := RateLimiter.check 60000 10 st req.ip now
  if !c.allowed then
    { response := ⟨429, false, "Rate limit exceeded",
        some "Too many requests. Please try again later."⟩
      savedLogs := []
      limiter := c.state
      relayAction := none
      finalLog := none }
  else if env.blockedIps.contains req.ip then
    { response := ⟨403, false, "Access Denied",
        some "Your IP address has been blocked."⟩
      savedLogs := []
      limiter := c.state
      relayAction := none
      finalLog := none }
  else
    afterGate env req c.state now

/-- Does a request make it past the gates and validation to the
`sendLogs` call?  (Mirrors the handler's path conditions.) -/
def reachesRelay (env : Env) (req : UploadRequest) (st : LimiterMap) (now : Nat) : Bool :=
  (RateLimiter.check 60000 10 st req.ip now).allowed
    && !(env.blockedIps.contains req.ip)
    && env.telegramConfigured
    && !(decide (req.chatId = "" ∨ jsTrim req.chatId = ""))
    && (match parseBody req.body with
        | .ok _ _ _ _ _ => true
        | _ => false)

/-- No match of `m` starts at any position of `ys`. -/
def NoMatch (m : List Char → Option Nat) (ys : List Char) : Prop :=
  ∀ i, m (ys.drop i) = none

/-! ## Helper lemmas: runs, literal prefixes, drops -/

theorem runLen_nil (f : Char → Bool) : runLen f [] = 0 := rfl

theorem runLen_cons (f : Char → Bool) (c : Char) (xs : List Char) :
    runLen f (c :: xs) = if f c then runLen f xs + 1 else 0 := by
  by_cases h : f c <;> simp [runLen, List.takeWhile, h]

theorem runLen_le_length (f : Char → Bool) (xs : List Char) : runLen f xs ≤ xs.length := by
  induction xs with
  | nil => simp [runLen_nil]
  | cons c t ih =>
    rw [runLen_cons]
    by_cases h : f c <;> simp [h] <;> omega

theorem runLen_pos_iff (f : Char → Bool) (xs : List Char) :
    0 < runLen f xs ↔ ∃ c t, xs = c :: t ∧ f c = true := by
  cases xs with
  | nil => simp [runLen_nil]
  | cons c t =>
    rw [runLen_cons]
    by_cases h : f c <;> simp [h]

theorem runLen_append (f : Char → Bool) (a b : List Char) :
    runLen f (a ++ b) =
      if runLen f a < a.length then runLen f a else a.length + runLen f b := by
  induction a with
  | nil => simp [runLen_nil]
  | cons c t ih =>
    by_cases h : f c
    · rw [List.cons_append, runLen_cons, runLen_cons, ih]
      by_cases h2 : runLen f t < t.length <;> simp [h, h2] <;> omega
    · rw [List.cons_append, runLen_cons, runLen_cons]
      simp [h]

theorem runLen_append_of_lt (f : Char → Bool) (a b : List Char)
    (h : runLen f a < a.length) : runLen f (a ++ b) = runLen f a := by
  rw [runLen_append]; simp [h]

/-- The character just past a maximal run fails the predicate. -/
theorem drop_runLen_stop (f : Char → Bool) (xs : List Char)
    (h : runLen f xs < xs.length) :
    ∃ c t, xs.drop (runLen f xs) = c :: t ∧ f c = false := by
  induction xs with
  | nil => simp at h
  | cons c t ih =>
    rw [runLen_cons] at h ⊢
    by_cases hc : f c
    · simp only [hc, if_true] at h ⊢
      simp only [List.length_cons] at h
      obtain ⟨d, u, hd, hf⟩ := ih (by omega)
      exact ⟨d, u, by simpa using hd, hf⟩
    · exact ⟨c, t, by simp [hc], by simpa using hc⟩

theorem drop_append_of_le (k : Nat) (a b : List Char) (h : k ≤ a.length) :
    (a ++ b).drop k = a.drop k ++ b := by
  induction a generalizing k with
  | nil => simp at h; simp [h]
  | cons c t ih =>
    cases k with
    | zero => simp
    | succ k => simpa using ih k (by simpa using h)

theorem drop_append_add (a b : List Char) (k : Nat) :
    (a ++ b).drop (a.length + k) = b.drop k := by
  induction a with
  | nil => simp
  | cons c t ih => simpa [Nat.succ_add] using ih

theorem leadsWith_iff (p xs : List Char) :
    leadsWith p xs = true ↔ ∃ t, xs = p ++ t := by
  induction p generalizing xs with
  | nil => simp [leadsWith]
  | cons a p ih =>
    cases xs with
    | nil => simp [leadsWith]
    | cons b t =>
      simp only [leadsWith, Bool.and_eq_true, decide_eq_true_eq, ih]
      constructor
      · rintro ⟨rfl, u, rfl⟩; exact ⟨u, rfl⟩
      · rintro ⟨u, hu⟩
        rw [List.cons_append] at hu
        cases hu
        exact ⟨rfl, u, rfl⟩

theorem leadsWith_append_of (p u : List Char) (h : leadsWith p u = true) (z : List Char) :
    leadsWith p (u ++ z) = true := by
  rw [leadsWith_iff] at h ⊢
  obtain ⟨t, rfl⟩ := h
  exact ⟨t ++ z, by simp⟩

/-- A literal pattern matching across `u ++ c :: w` either fits inside `u`
or contains the boundary character `c`. -/
theorem leadsWith_append_cons (p u : List Char) (c : Char) (w : List Char)
    (h : leadsWith p (u ++ c :: w) = true) :
    (leadsWith p u = true ∧ p.length ≤ u.length) ∨ c ∈ p := by
  induction p generalizing u with
  | nil => left; exact ⟨rfl, by simp⟩
  | cons a p ih =>
    cases u with
    | nil =>
      right
      simp only [List.nil_append, leadsWith, Bool.and_eq_true, decide_eq_true_eq] at h
      simp [h.1]
    | cons b t =>
      simp only [List.cons_append, leadsWith, Bool.and_eq_true, decide_eq_true_eq] at h
      obtain ⟨rfl, h2⟩ := h
      rcases ih t h2 with ⟨h3, h4⟩ | h3
      · left
        constructor
        · simp [leadsWith, h3]
        · simpa using h4
      · right; simp [h3]

/-! ## Generic facts about the global-replace scan -/

theorem scanAux_skip (m : List Char → Option Nat) (r : List Char) :
    ∀ (xs : List Char) (k : Nat), scanAux m r k xs = scanRepl m r (xs.drop k) := by
  intro xs
  induction xs with
  | nil => intro k; cases k <;> rfl
  | cons c t ih =>
    intro k
    cases k with
    | zero => rfl
    | succ k => simpa [scanAux] using ih k

theorem scanRepl_nil (m : List Char → Option Nat) (r : List Char) :
    scanRepl m r [] = [] := rfl

theorem scanRepl_cons_some (m : List Char → Option Nat) (r : List Char)
    (c : Char) (rest : List Char) (n : Nat) (h : m (c :: rest) = some n) :
    scanRepl m r (c :: rest) = r ++ scanRepl m r (rest.drop (n - 1)) := by
  rw [scanRepl, scanAux, h]
  show r ++ scanAux m r (n - 1) rest = _
  rw [scanAux_skip]

theorem scanRepl_cons_none (m : List Char → Option Nat) (r : List Char)
    (c : Char) (rest : List Char) (h : m (c :: rest) = none) :
    scanRepl m r (c :: rest) = c :: scanRepl m r rest := by
  rw [scanRepl, scanAux, h]
  rfl

/-- If no match starts anywhere, the scan is the identity: all other
characters are preserved in order. -/
theorem scanRepl_eq_self (m : List Char → Option Nat) (r : List Char)
    (xs : List Char) (h : NoMatch m xs) : scanRepl m r xs = xs := by
  induction xs with
  | nil => rfl
  | cons c t ih =>
    rw [scanRepl_cons_none m r c t (by simpa using h 0)]
    rw [ih (fun i => by simpa using h (i + 1))]

/-- Transfer of match-freedom across a replacement: if `m1` has no match
at the start of `u ++ rest` then it has none at the start of `u` followed
by the `m2`-scan of `rest`.  The two hypotheses say that a match of `m1`
starting inside the replacement text is impossible whatever follows, and
that replacing a matched tail by the replacement text cannot create an
`m1`-match spanning the boundary. -/
theorem scanAppend_none (m1 m2 : List Char → Option Nat) (r : List Char)
    (hBound : ∀ u d v w, m2 (d :: v) ≠ none → m1 (u ++ d :: v) = none →
      m1 (u ++ r ++ w) = none) :
    ∀ (rest u : List Char), m1 (u ++ rest) = none → m1 (u ++ scanRepl m2 r rest) = none := by
  intro rest
  induction rest with
  | nil => intro u h; simpa [scanRepl_nil] using h
  | cons c t ih =>
    intro u h
    cases hm : m2 (c :: t) with
    | some n =>
      rw [scanRepl_cons_some m2 r c t n hm, ← List.append_assoc]
      exact hBound u c t (scanRepl m2 r (t.drop (n - 1))) (by simp [hm]) h
    | none =>
      rw [scanRepl_cons_none m2 r c t hm]
      have h2 : m1 ((u ++ [c]) ++ t) = none := by simpa using h
      simpa using ih (u ++ [c]) h2

/-- Bounded-length core of `noMatch_scanRepl`, by induction on the
length bound. -/
theorem noMatch_scanRepl_aux (m1 m2 : List Char → Option Nat) (r : List Char)
    (hNil : m1 [] = none)
    (hIns : ∀ i z, i < r.length → m1 (r.drop i ++ z) = none)
    (hBound : ∀ u d v w, m2 (d :: v) ≠ none → m1 (u ++ d :: v) = none →
      m1 (u ++ r ++ w) = none) :
    ∀ (N : Nat) (xs : List Char), xs.length ≤ N →
      ((∀ i, m1 (xs.drop i) = none) ∨ (∀ xs2, m1 xs2 = m2 xs2)) →
      NoMatch m1 (scanRepl m2 r xs) := by
  intro N
  induction N with
  | zero =>
    intro xs hlen _
    have hx : xs = [] := List.length_eq_zero.mp (Nat.le_zero.mp hlen)
    subst hx
    intro i
    simpa [scanRepl_nil] using hNil
  | succ N ih =>
    intro xs hlen hsrc
    cases xs with
    | nil =>
      intro i
      simpa [scanRepl_nil] using hNil
    | cons c t =>
      cases hm : m2 (c :: t) with
      | some k =>
        rw [scanRepl_cons_some m2 r c t k hm]
        intro i
        by_cases hi : i < r.length
        · rw [drop_append_of_le i r _ (by omega)]
          exact hIns i _ hi
        · have heq : (r ++ scanRepl m2 r (t.drop (k - 1))).drop i
              = (scanRepl m2 r (t.drop (k - 1))).drop (i - r.length) := by
            have h2 : i = r.length + (i - r.length) := by omega
            conv_lhs => rw [h2]
            rw [drop_append_add]
          rw [heq]
          have hlen2 : (t.drop (k - 1)).length ≤ N := by
            simp only [List.length_drop]
            simp only [List.length_cons] at hlen
            omega
          have hsrc2 : (∀ i, m1 ((t.drop (k - 1)).drop i) = none)
              ∨ (∀ xs2, m1 xs2 = m2 xs2) := by
            rcases hsrc with hsrc | hsrc
            · left
              intro j
              have h3 := hsrc (j + (k - 1) + 1)
              rw [List.drop_succ_cons] at h3
              simpa [List.drop_drop, Nat.add_comm] using h3
            · right; exact hsrc
          exact ih _ hlen2 hsrc2 (i - r.length)
      | none =>
        have hm1 : m1 (c :: t) = none := by
          rcases hsrc with hsrc | hsrc
          · simpa using hsrc 0
          · rw [hsrc]; exact hm
        rw [scanRepl_cons_none m2 r c t hm]
        intro i
        cases i with
        | zero =>
          have := scanAppend_none m1 m2 r hBound t [c] (by simpa using hm1)
          simpa using this
        | succ i =>
          have hlen2 : t.length ≤ N := by
            simp only [List.length_cons] at hlen; omega
          have hsrc2 : (∀ i, m1 (t.drop i) = none) ∨ (∀ xs2, m1 xs2 = m2 xs2) := by
            rcases hsrc with hsrc | hsrc
            · left; intro j; simpa using hsrc (j + 1)
            · right; exact hsrc
          exact ih _ hlen2 hsrc2 i

/-- The scan output contains no match of `m1`, given that (a) `m1` cannot
match starting at any position inside the replacement text whatever
follows it, (b) no boundary match can be created, and (c) either the
input itself has no `m1`-match anywhere, or `m1` is the scanner's own
matcher. -/
theorem noMatch_scanRepl (m1 m2 : List Char → Option Nat) (r : List Char)
    (hNil : m1 [] = none)
    (hIns : ∀ i z, i < r.length → m1 (r.drop i ++ z) = none)
    (hBound : ∀ u d v w, m2 (d :: v) ≠ none → m1 (u ++ d :: v) = none →
      m1 (u ++ r ++ w) = none)
    (xs : List Char)
    (hsrc : (∀ i, m1 (xs.drop i) = none) ∨ (∀ xs2, m1 xs2 = m2 xs2)) :
    NoMatch m1 (scanRepl m2 r xs) :=
  noMatch_scanRepl_aux m1 m2 r hNil hIns hBound xs.length xs (Nat.le_refl _) hsrc

/-! ## Facts about the older sanitizer's matchers -/

theorem matchHttp_nil : matchHttp [] = none := rfl

theorem matchWww_nil : matchWww [] = none := rfl

theorem matchDomain_nil : matchDomain [] = none := rfl

theorem matchUrlAt_nil : matchUrlAt [] = none := rfl

theorem matchMentionAt_nil : matchMentionAt [] = none := rfl

theorem matchUrlAt_none_iff (xs : List Char) :
    matchUrlAt xs = none ↔
      matchHttp xs = none ∧ matchWww xs = none ∧ matchDomain xs = none := by
  cases h1 : matchHttp xs <;> cases h2 : matchWww xs <;> cases h3 : matchDomain xs <;>
    simp [matchUrlAt, h1, h2, h3]

theorem matchHttp_cons_ne (c : Char) (t : List Char) (h : c ≠ 'h') :
    matchHttp (c :: t) = none := by
  have e1 : "https://".data = 'h' :: "ttps://".data := rfl
  have e2 : "http://".data = 'h' :: "ttp://".data := rfl
  rw [matchHttp, e1, e2]
  simp only [leadsWith, Bool.and_eq_true, decide_eq_true_eq]
  have : ('h' = c) = False := by
    simp only [eq_iff_iff, iff_false]
    exact fun h2 => h h2.symm
  simp [this]

theorem matchWww_cons_ne (c : Char) (t : List Char) (h : c ≠ 'w') :
    matchWww (c :: t) = none := by
  have e1 : "www.".data = 'w' :: "ww.".data := rfl
  rw [matchWww, e1]
  simp only [leadsWith, Bool.and_eq_true, decide_eq_true_eq]
  have : ('w' = c) = False := by
    simp only [eq_iff_iff, iff_false]
    exact fun h2 => h h2.symm
  simp [this]

theorem matchMentionAt_cons_ne (c : Char) (t : List Char) (h : c ≠ '@') :
    matchMentionAt (c :: t) = none := by
  simp [matchMentionAt, h]

theorem headIsDot_cons_ne (c : Char) (t : List Char) (h : c ≠ '.') :
    headIsDot (c :: t) = false := by
  simp [headIsDot, h]

theorem headIsDot_cons_dot (t : List Char) : headIsDot ('.' :: t) = true := rfl

theorem headIsDot_nil : headIsDot [] = false := rfl

/-- If the maximal `[a-zA-Z0-9-]` run of `s` ends strictly inside `s` and
`s` contains no dot, no text continuing `s` can produce a domain match at
its head. -/
theorem matchDomain_append_none (s : List Char)
    (h1 : runLen isDomChar s < s.length) (h2 : '.' ∉ s) :
    ∀ z, matchDomain (s ++ z) = none := by
  intro z
  have hr : runLen isDomChar (s ++ z) = runLen isDomChar s :=
    runLen_append_of_lt _ _ _ h1
  by_cases h0 : runLen isDomChar s = 0
  · rw [matchDomain, hr, h0]
    simp
  · obtain ⟨c, t, hd, hf⟩ := drop_runLen_stop isDomChar s h1
    have hdz : (s ++ z).drop (runLen isDomChar s) = c :: (t ++ z) := by
      rw [drop_append_of_le _ _ _ (Nat.le_of_lt h1), hd]
      simp
    have hc : c ≠ '.' := by
      intro heq
      apply h2
      rw [← heq]
      exact List.drop_subset _ s (by rw [hd]; exact List.mem_cons_self c t)
    rw [matchDomain, hr, hdz, if_neg h0, headIsDot_cons_ne c _ hc]
    simp

theorem domChar_not_space (c : Char) (h : isDomChar c = true) : isSpaceJS c = false := by
  by_contra h2
  have h3 : isSpaceJS c = true := by
    cases hx : isSpaceJS c
    · exact absurd hx h2
    · rfl
  simp only [isSpaceJS, Bool.or_eq_true, decide_eq_true_eq] at h3
  rcases h3 with ((((((h3 | h3) | h3) | h3) | h3) | h3) | h3) <;>
    (subst h3; simp [isDomChar] at h)

theorem matchUrlAt_head_nonspace (d : Char) (v : List Char)
    (h : matchUrlAt (d :: v) ≠ none) : isSpaceJS d = false := by
  have h2 : ¬(matchHttp (d :: v) = none ∧ matchWww (d :: v) = none
      ∧ matchDomain (d :: v) = none) :=
    fun hc => h ((matchUrlAt_none_iff _).mpr hc)
  by_cases hh : matchHttp (d :: v) = none
  · by_cases hw : matchWww (d :: v) = none
    · have hd : matchDomain (d :: v) ≠ none := by tauto
      have hr : runLen isDomChar (d :: v) ≠ 0 := by
        intro h0
        apply hd
        rw [matchDomain, h0]
        simp
      rw [runLen_cons] at hr
      by_cases hdc : isDomChar d
      · exact domChar_not_space d hdc
      · simp [hdc] at hr
    · have : d = 'w' := by
        by_contra hne
        exact hw (matchWww_cons_ne d v hne)
      subst this
      decide
  · have : d = 'h' := by
      by_contra hne
      exact hh (matchHttp_cons_ne d v hne)
    subst this
    decide

theorem matchMentionAt_head (d : Char) (v : List Char)
    (h : matchMentionAt (d :: v) ≠ none) : d = '@' := by
  by_contra hne
  exact h (matchMentionAt_cons_ne d v hne)

/-- A URL match cannot start at a position where the first character is
neither `h` nor `w` nor the start of a dotted domain shape, whatever
follows; packaged for the concrete replacement suffixes. -/
theorem matchUrlAt_append_none (c : Char) (s : List Char)
    (hh : c ≠ 'h') (hw : c ≠ 'w')
    (h1 : runLen isDomChar (c :: s) < (c :: s).length)
    (h2 : '.' ∉ (c :: s)) :
    ∀ z, matchUrlAt ((c :: s) ++ z) = none := by
  intro z
  rw [matchUrlAt_none_iff]
  refine ⟨matchHttp_cons_ne c (s ++ z) hh, matchWww_cons_ne c (s ++ z) hw, ?_⟩
  exact matchDomain_append_none (c :: s) h1 h2 z

/-- No URL match starts inside `[LINK REMOVED]`, whatever follows it. -/
theorem noUrl_in_linkRemoved :
    ∀ i z, i < linkRemoved.length → matchUrlAt (linkRemoved.drop i ++ z) = none := by
  intro i z hi
  have h14 : linkRemoved.length = 14 := rfl
  rw [h14] at hi
  interval_cases i <;>
    exact matchUrlAt_append_none _ _ (by decide) (by decide) (by decide) (by decide) z

/-- No URL match starts inside `[MENTION REMOVED]`, whatever follows it. -/
theorem noUrl_in_mentionRemoved :
    ∀ i z, i < mentionRemoved.length → matchUrlAt (mentionRemoved.drop i ++ z) = none := by
  intro i z hi
  have h17 : mentionRemoved.length = 17 := rfl
  rw [h17] at hi
  interval_cases i <;>
    exact matchUrlAt_append_none _ _ (by decide) (by decide) (by decide) (by decide) z

/-- No mention match starts inside `[MENTION REMOVED]`, whatever follows
it (there is no `@` anywhere in the replacement). -/
theorem noMention_in_mentionRemoved :
    ∀ i z, i < mentionRemoved.length → matchMentionAt (mentionRemoved.drop i ++ z) = none := by
  intro i z hi
  have h17 : mentionRemoved.length = 17 := rfl
  rw [h17] at hi
  interval_cases i <;> exact matchMentionAt_cons_ne _ _ (by decide)

theorem runLen_cons_false (f : Char → Bool) (c : Char) (t : List Char)
    (h : f c = false) : runLen f (c :: t) = 0 := by
  rw [runLen_cons]
  simp [h]

theorem runLen_append_full (f : Char → Bool) (a b : List Char)
    (h : runLen f a = a.length) : runLen f (a ++ b) = a.length + runLen f b := by
  rw [runLen_append]
  simp [h]

/-- If a maximal run is empty across `s ++ d :: v` although `d` is in the
class, then it already dies inside `s`, so it is empty across any other
continuation as well. -/
theorem runZero_transfer (f : Char → Bool) (s : List Char) (d : Char) (v : List Char)
    (h : runLen f (s ++ d :: v) = 0) (hd : f d = true) (c : Char) (w : List Char) :
    runLen f (s ++ c :: w) = 0 := by
  cases s with
  | nil =>
    rw [List.nil_append, runLen_cons, if_pos hd] at h
    simp at h
  | cons a s2 =>
    rw [List.cons_append, runLen_cons] at h ⊢
    by_cases ha : f a
    · rw [if_pos ha] at h
      simp at h
    · rw [if_neg ha]

/-! ## Boundary lemmas: replacing a matched tail by `[...]` cannot create
a match spanning the boundary -/

theorem matchDomainTail3_boundary (t2 : List Char) (d : Char) (v w : List Char)
    (r1 r2 : Nat) (h : matchDomainTail3 (t2 ++ d :: v) r1 r2 = none) :
    matchDomainTail3 (t2 ++ '[' :: w) r1 r2 = none := by
  by_cases hu : runLen isAlphaChar t2 < t2.length
  · have hi := runLen_append_of_lt isAlphaChar t2 ('[' :: w) hu
    have hdv := runLen_append_of_lt isAlphaChar t2 (d :: v) hu
    rw [matchDomainTail3, hdv] at h
    rw [matchDomainTail3, hi]
    by_cases h2 : runLen isAlphaChar t2 < 2
    · rw [if_pos h2]
    · rw [if_neg h2] at h
      exact absurd h (by simp)
  · have hfull : runLen isAlphaChar t2 = t2.length :=
      Nat.le_antisymm (runLen_le_length _ _) (Nat.le_of_not_lt hu)
    have hi : runLen isAlphaChar (t2 ++ '[' :: w) = t2.length := by
      rw [runLen_append_full _ _ _ hfull, runLen_cons_false _ _ _ (by decide)]
      omega
    have hdv : t2.length ≤ runLen isAlphaChar (t2 ++ d :: v) := by
      rw [runLen_append_full _ _ _ hfull]
      omega
    rw [matchDomainTail3, hi]
    by_cases h2 : t2.length < 2
    · rw [if_pos h2]
    · exfalso
      rw [matchDomainTail3, if_neg (by omega : ¬runLen isAlphaChar (t2 ++ d :: v) < 2)] at h
      exact absurd h (by simp)

theorem matchDomainTail2_boundary (t : List Char) (d : Char) (v w : List Char)
    (r1 : Nat) (h : matchDomainTail2 (t ++ d :: v) r1 = none) :
    matchDomainTail2 (t ++ '[' :: w) r1 = none := by
  by_cases hu : runLen isDomChar t < t.length
  · have hi := runLen_append_of_lt isDomChar t ('[' :: w) hu
    have hdv := runLen_append_of_lt isDomChar t (d :: v) hu
    by_cases h0 : runLen isDomChar t = 0
    · rw [matchDomainTail2, hi, if_pos h0]
    · obtain ⟨c2, t2, hd2, hf2⟩ := drop_runLen_stop isDomChar t hu
      have hdi : (t ++ '[' :: w).drop (runLen isDomChar t) = c2 :: (t2 ++ '[' :: w) := by
        rw [drop_append_of_le _ _ _ (Nat.le_of_lt hu), hd2]
        simp
      have hdd : (t ++ d :: v).drop (runLen isDomChar t) = c2 :: (t2 ++ d :: v) := by
        rw [drop_append_of_le _ _ _ (Nat.le_of_lt hu), hd2]
        simp
      by_cases hc2 : c2 = '.'
      · subst hc2
        rw [matchDomainTail2, hdv, hdd, if_neg h0, headIsDot_cons_dot] at h
        simp only [if_true, List.tail_cons] at h
        rw [matchDomainTail2, hi, hdi, if_neg h0, headIsDot_cons_dot]
        simp only [if_true, List.tail_cons]
        exact matchDomainTail3_boundary t2 d v w r1 _ h
      · rw [matchDomainTail2, hi, hdi, if_neg h0, headIsDot_cons_ne _ _ hc2]
        simp
  · have hfull : runLen isDomChar t = t.length :=
      Nat.le_antisymm (runLen_le_length _ _) (Nat.le_of_not_lt hu)
    have hi : runLen isDomChar (t ++ '[' :: w) = t.length := by
      rw [runLen_append_full _ _ _ hfull, runLen_cons_false _ _ _ (by decide)]
      omega
    by_cases h0 : t.length = 0
    · rw [matchDomainTail2, hi, if_pos h0]
    · have hdrop : (t ++ '[' :: w).drop t.length = '[' :: w := by
        have h2 := drop_append_add t ('[' :: w) 0
        simpa using h2
      rw [matchDomainTail2, hi, if_neg h0, hdrop, headIsDot_cons_ne '[' w (by decide)]
      simp

theorem matchDomain_boundary (u : List Char) (d : Char) (v w : List Char)
    (h : matchDomain (u ++ d :: v) = none) :
    matchDomain (u ++ '[' :: w) = none := by
  by_cases hu : runLen isDomChar u < u.length
  · have hi := runLen_append_of_lt isDomChar u ('[' :: w) hu
    have hdv := runLen_append_of_lt isDomChar u (d :: v) hu
    by_cases h0 : runLen isDomChar u = 0
    · rw [matchDomain, hi, if_pos h0]
    · obtain ⟨c2, t2, hd2, hf2⟩ := drop_runLen_stop isDomChar u hu
      have hdi : (u ++ '[' :: w).drop (runLen isDomChar u) = c2 :: (t2 ++ '[' :: w) := by
        rw [drop_append_of_le _ _ _ (Nat.le_of_lt hu), hd2]
        simp
      have hdd : (u ++ d :: v).drop (runLen isDomChar u) = c2 :: (t2 ++ d :: v) := by
        rw [drop_append_of_le _ _ _ (Nat.le_of_lt hu), hd2]
        simp
      by_cases hc2 : c2 = '.'
      · subst hc2
        rw [matchDomain, hdv, hdd, if_neg h0, headIsDot_cons_dot] at h
        simp only [if_true, List.tail_cons] at h
        rw [matchDomain, hi, hdi, if_neg h0, headIsDot_cons_dot]
        simp only [if_true, List.tail_cons]
        exact matchDomainTail2_boundary t2 d v w _ h
      · rw [matchDomain, hi, hdi, if_neg h0, headIsDot_cons_ne _ _ hc2]
        simp
  · have hfull : runLen isDomChar u = u.length :=
      Nat.le_antisymm (runLen_le_length _ _) (Nat.le_of_not_lt hu)
    have hi : runLen isDomChar (u ++ '[' :: w) = u.length := by
      rw [runLen_append_full _ _ _ hfull, runLen_cons_false _ _ _ (by decide)]
      omega
    by_cases h0 : u.length = 0
    · rw [matchDomain, hi, if_pos h0]
    · have hdrop : (u ++ '[' :: w).drop u.length = '[' :: w := by
        have h2 := drop_append_add u ('[' :: w) 0
        simpa using h2
      rw [matchDomain, hi, if_neg h0, hdrop, headIsDot_cons_ne '[' w (by decide)]
      simp

theorem matchWww_boundary (u : List Char) (d : Char) (v w : List Char)
    (hd : isSpaceJS d = false) (h : matchWww (u ++ d :: v) = none) :
    matchWww (u ++ '[' :: w) = none := by
  cases hp : leadsWith "www.".data (u ++ '[' :: w) with
  | false => rw [matchWww, hp]; simp
  | true =>
    rcases leadsWith_append_cons _ u '[' w hp with ⟨hpu, hlen⟩ | hmem
    · have hpd : leadsWith "www.".data (u ++ d :: v) = true :=
        leadsWith_append_of _ u hpu _
      have hlen4 : 4 ≤ u.length := by
        have h4 : ("www.".data).length = 4 := rfl
        omega
      rw [matchWww, hpd] at h
      have hrun0 : nonspaceRun ((u ++ d :: v).drop 4) = 0 := by
        by_cases hz : nonspaceRun ((u ++ d :: v).drop 4) = 0
        · exact hz
        · rw [if_neg hz] at h
          exact absurd h (by simp)
      rw [drop_append_of_le 4 u _ hlen4] at hrun0
      have hz2 : nonspaceRun (u.drop 4 ++ '[' :: w) = 0 :=
        runZero_transfer _ _ d v hrun0 (by simp [hd]) '[' w
      rw [matchWww, hp, drop_append_of_le 4 u _ hlen4, hz2]
      simp
    · exact absurd hmem (by decide)

theorem matchHttp_boundary (u : List Char) (d : Char) (v w : List Char)
    (hd : isSpaceJS d = false) (h : matchHttp (u ++ d :: v) = none) :
    matchHttp (u ++ '[' :: w) = none := by
  cases hp8 : leadsWith "https://".data (u ++ '[' :: w) with
  | true =>
    rcases leadsWith_append_cons _ u '[' w hp8 with ⟨hpu, hlen⟩ | hmem
    · have hpd : leadsWith "https://".data (u ++ d :: v) = true :=
        leadsWith_append_of _ u hpu _
      have hlen8 : 8 ≤ u.length := by
        have h8 : ("https://".data).length = 8 := rfl
        omega
      rw [matchHttp, hpd] at h
      have hrun0 : nonspaceRun ((u ++ d :: v).drop 8) = 0 := by
        by_cases hz : nonspaceRun ((u ++ d :: v).drop 8) = 0
        · exact hz
        · rw [if_neg hz] at h
          exact absurd h (by simp)
      rw [drop_append_of_le 8 u _ hlen8] at hrun0
      have hz2 : nonspaceRun (u.drop 8 ++ '[' :: w) = 0 :=
        runZero_transfer _ _ d v hrun0 (by simp [hd]) '[' w
      rw [matchHttp, hp8, drop_append_of_le 8 u _ hlen8, hz2]
      simp
    · exact absurd hmem (by decide)
  | false =>
    cases hp7 : leadsWith "http://".data (u ++ '[' :: w) with
    | false => rw [matchHttp, hp8, hp7]; simp
    | true =>
      rcases leadsWith_append_cons _ u '[' w hp7 with ⟨hpu, hlen⟩ | hmem
      · have hpd7 : leadsWith "http://".data (u ++ d :: v) = true :=
          leadsWith_append_of _ u hpu _
        have hlen7 : 7 ≤ u.length := by
          have h7 : ("http://".data).length = 7 := rfl
          omega
        have hpd8 : leadsWith "https://".data (u ++ d :: v) = false := by
          cases hx : leadsWith "https://".data (u ++ d :: v)
          · rfl
          · exfalso
            obtain ⟨t1, ht1⟩ := (leadsWith_iff _ _).mp hx
            obtain ⟨u0, hu0⟩ := (leadsWith_iff _ _).mp hpu
            rw [hu0] at ht1
            have e7 : "http://".data = 'h' :: 't' :: 't' :: 'p' :: ':' :: '/' :: '/' :: [] := rfl
            have e8 : "https://".data
                = 'h' :: 't' :: 't' :: 'p' :: 's' :: ':' :: '/' :: '/' :: [] := rfl
            rw [e7, e8] at ht1
            simp at ht1
        rw [matchHttp, hpd8, hpd7] at h
        simp only [Bool.false_eq_true, if_false] at h
        have hrun0 : nonspaceRun ((u ++ d :: v).drop 7) = 0 := by
          by_cases hz : nonspaceRun ((u ++ d :: v).drop 7) = 0
          · exact hz
          · rw [if_neg hz] at h
            exact absurd h (by simp)
        rw [drop_append_of_le 7 u _ hlen7] at hrun0
        have hz2 : nonspaceRun (u.drop 7 ++ '[' :: w) = 0 :=
          runZero_transfer _ _ d v hrun0 (by simp [hd]) '[' w
        rw [matchHttp, hp8, hp7, drop_append_of_le 7 u _ hlen7, hz2]
        simp
      · exact absurd hmem (by decide)

/-- The key boundary fact for the URL regex: if no URL match starts at
the head of `u ++ d :: v` (with `d` not whitespace), then none starts at
the head of `u ++ '[' :: w` either — so replacing the matched tail by
`[LINK REMOVED]`/`[MENTION REMOVED]` (both start with `[`) cannot create
a URL match spanning the boundary. -/
theorem matchUrlAt_boundary (u : List Char) (d : Char) (v w : List Char)
    (hd : isSpaceJS d = false) (h : matchUrlAt (u ++ d :: v) = none) :
    matchUrlAt (u ++ '[' :: w) = none := by
  rw [matchUrlAt_none_iff] at h ⊢
  exact ⟨matchHttp_boundary u d v w hd h.1, matchWww_boundary u d v w hd h.2.1,
    matchDomain_boundary u d v w h.2.2⟩

/-- The boundary fact for the mention regex: nothing about `d` is needed
because the replacement starts with `[`, which is neither `@` nor a word
character. -/
theorem matchMentionAt_boundary (u : List Char) (d : Char) (v w : List Char)
    (h : matchMentionAt (u ++ d :: v) = none) :
    matchMentionAt (u ++ '[' :: w) = none := by
  cases u with
  | nil => exact matchMentionAt_cons_ne '[' w (by decide)
  | cons a u2 =>
    rw [List.cons_append] at h ⊢
    by_cases ha : a = '@'
    · subst ha
      rw [matchMentionAt] at h ⊢
      simp only [if_pos rfl] at h ⊢
      cases u2 with
      | nil =>
        rw [List.nil_append, runLen_cons_false _ _ _ (by decide)]
        simp
      | cons e u3 =>
        rw [List.cons_append, runLen_cons] at h ⊢
        by_cases he : isWordChar e
        · rw [if_pos he] at h
          simp at h
        · rw [if_neg he]
          simp
    · exact matchMentionAt_cons_ne a _ ha

/-! ## No match survives its own scan; scans do not create matches -/

theorem noUrl_urlScan (xs : List Char) : NoMatch matchUrlAt (urlScan xs) := by
  apply noMatch_scanRepl matchUrlAt matchUrlAt linkRemoved matchUrlAt_nil
    noUrl_in_linkRemoved _ xs (Or.inr (fun _ => rfl))
  intro u d v w hm h
  have hd := matchUrlAt_head_nonspace d v hm
  have h2 := matchUrlAt_boundary u d v ("LINK REMOVED]".data ++ w) hd h
  have e : (u ++ linkRemoved) ++ w = u ++ '[' :: ("LINK REMOVED]".data ++ w) := by
    have el : linkRemoved = '[' :: "LINK REMOVED]".data := rfl
    rw [el]
    simp
  rw [e]
  exact h2

theorem noUrl_mentionScan (xs : List Char) (h : NoMatch matchUrlAt xs) :
    NoMatch matchUrlAt (mentionScan xs) := by
  apply noMatch_scanRepl matchUrlAt matchMentionAt mentionRemoved matchUrlAt_nil
    noUrl_in_mentionRemoved _ xs (Or.inl h)
  intro u d v w hm hnone
  have hd : d = '@' := matchMentionAt_head d v hm
  subst hd
  have h2 := matchUrlAt_boundary u '@' v ("MENTION REMOVED]".data ++ w) (by decide) hnone
  have e : (u ++ mentionRemoved) ++ w = u ++ '[' :: ("MENTION REMOVED]".data ++ w) := by
    have el : mentionRemoved = '[' :: "MENTION REMOVED]".data := rfl
    rw [el]
    simp
  rw [e]
  exact h2

theorem noMention_mentionScan (xs : List Char) :
    NoMatch matchMentionAt (mentionScan xs) := by
  apply noMatch_scanRepl matchMentionAt matchMentionAt mentionRemoved matchMentionAt_nil
    noMention_in_mentionRemoved _ xs (Or.inr (fun _ => rfl))
  intro u d v w _ hnone
  have h2 := matchMentionAt_boundary u d v ("MENTION REMOVED]".data ++ w) hnone
  have e : (u ++ mentionRemoved) ++ w = u ++ '[' :: ("MENTION REMOVED]".data ++ w) := by
    have el : mentionRemoved = '[' :: "MENTION REMOVED]".data := rfl
    rw [el]
    simp
  rw [e]
  exact h2

/-- Idempotence of the older sanitizer, on raw character lists. -/
theorem sanitize_lists_idem (l : List Char) :
    mentionScan (urlScan (mentionScan (urlScan l))) = mentionScan (urlScan l) := by
  have hU : urlScan (mentionScan (urlScan l)) = mentionScan (urlScan l) :=
    scanRepl_eq_self _ _ _ (noUrl_mentionScan _ (noUrl_urlScan l))
  have hM : mentionScan (mentionScan (urlScan l)) = mentionScan (urlScan l) :=
    scanRepl_eq_self _ _ _ (noMention_mentionScan (urlScan l))
  rw [hU, hM]

theorem sanitizeContent_idem (s : String) :
    sanitizeContent (sanitizeContent s) = sanitizeContent s := by
  by_cases hs : s.isEmpty
  · have h1 : sanitizeContent s = s := by rw [sanitizeContent, if_pos hs]
    rw [h1]
    exact h1
  · have h1 : sanitizeContent s = String.mk (mentionScan (urlScan s.data)) := by
      rw [sanitizeContent, if_neg hs]
    by_cases hy : (String.mk (mentionScan (urlScan s.data))).isEmpty
    · rw [h1, sanitizeContent, if_pos hy]
    · rw [h1, sanitizeContent, if_neg hy]
      have hdata : (String.mk (mentionScan (urlScan s.data))).data
          = mentionScan (urlScan s.data) := rfl
      rw [hdata, sanitize_lists_idem]

/-! ## Rate limiter lemmas -/

theorem lookup_setEntry (st : LimiterMap) (k : String) (v : RateLimitEntry) :
    lookupEntry (setEntry st k v) k = some v := by
  induction st with
  | nil => simp [setEntry, lookupEntry]
  | cons kv rest ih =>
    obtain ⟨k2, v2⟩ := kv
    by_cases h : k2 = k
    · simp [setEntry, lookupEntry, h]
    · simp [setEntry, lookupEntry, h, ih]

theorem check_fresh (st : LimiterMap) (key : String) (now : Nat)
    (h : lookupEntry st key = none) :
    RateLimiter.check 60000 10 st key now = ⟨true, 9, setEntry st key ⟨1, now⟩⟩ := by
  rw [RateLimiter.check, h]

theorem check_within_incr (st : LimiterMap) (key : String) (now t0 c : Nat)
    (h : lookupEntry st key = some ⟨c, t0⟩) (hw : ¬now - t0 > 60000) (hc : c < 10) :
    RateLimiter.check 60000 10 st key now
      = ⟨true, 10 - (c + 1), setEntry st key ⟨c + 1, t0⟩⟩ := by
  simp only [RateLimiter.check, h]
  rw [if_neg hw, if_neg (by omega : ¬c ≥ 10)]

theorem check_full (st : LimiterMap) (key : String) (now t0 c : Nat)
    (h : lookupEntry st key = some ⟨c, t0⟩) (hw : ¬now - t0 > 60000) (hc : c ≥ 10) :
    RateLimiter.check 60000 10 st key now = ⟨false, 0, st⟩ := by
  simp only [RateLimiter.check, h]
  rw [if_neg hw, if_pos (by omega : c ≥ 10)]

theorem runChecks_cons (w m : Nat) (key : String) (st : LimiterMap) (t : Nat)
    (ts : List Nat) :
    runChecks w m key st (t :: ts)
      = (((RateLimiter.check w m st key t).allowed,
          (RateLimiter.check w m st key t).remaining)
            :: (runChecks w m key (RateLimiter.check w m st key t).state ts).1,
         (runChecks w m key (RateLimiter.check w m st key t).state ts).2) := rfl

theorem runChecks_append (w m : Nat) (key : String) (as bs : List Nat) :
    ∀ st, runChecks w m key st (as ++ bs)
      = ((runChecks w m key st as).1
          ++ (runChecks w m key (runChecks w m key st as).2 bs).1,
         (runChecks w m key (runChecks w m key st as).2 bs).2) := by
  induction as with
  | nil => intro st; simp [runChecks]
  | cons a as ih =>
    intro st
    rw [List.cons_append, runChecks_cons, runChecks_cons, ih]
    simp [runChecks_cons]

/-- Calls inside the window, starting from a live entry with room left,
are all allowed and just bump the counter. -/
theorem runChecks_allowed (ts : List Nat) :
    ∀ (st : LimiterMap) (key : String) (t0 c : Nat),
      lookupEntry st key = some ⟨c, t0⟩ → 1 ≤ c → c + ts.length ≤ 10 →
      (∀ t ∈ ts, t - t0 ≤ 60000) →
      (runChecks 60000 10 key st ts).1.map Prod.fst = List.replicate ts.length true
      ∧ lookupEntry (runChecks 60000 10 key st ts).2 key = some ⟨c + ts.length, t0⟩ := by
  induction ts with
  | nil =>
    intro st key t0 c hl _ _ _
    simpa [runChecks] using hl
  | cons t ts ih =>
    intro st key t0 c hl hc hle hw
    have hcheck : RateLimiter.check 60000 10 st key t
        = ⟨true, 10 - (c + 1), setEntry st key ⟨c + 1, t0⟩⟩ := by
      apply check_within_incr st key t t0 c hl
      · have := hw t (by simp)
        omega
      · simp at hle
        omega
    rw [runChecks_cons, hcheck]
    have hnext := ih (setEntry st key ⟨c + 1, t0⟩) key t0 (c + 1)
      (lookup_setEntry st key _) (by omega)
      (by simp at hle; omega)
      (fun t2 ht2 => hw t2 (by simp [ht2]))
    refine ⟨?_, ?_⟩
    · simp only [List.map_cons, hnext.1, List.length_cons, List.replicate_succ]
    · have h2 := hnext.2
      simp only [List.length_cons]
      convert h2 using 3
      omega

/-- C5: for the limiter instance with `N = 10`, `W = 60s` and any fixed
key: starting from no entry, eleven calls inside one window are answered
`allowed` ten times and then rejected, with the stored count left at 10
by the rejected call; and any call made strictly after
`windowStart + W` resets the entry and returns `allowed = true` with
`remaining = 9`. -/
theorem rateLimiter_window_behavior :
    (∀ (key : String) (st : LimiterMap) (t0 : Nat) (ts : List Nat) (t10 : Nat),
      lookupEntry st key = none → ts.length = 9 →
      (∀ t ∈ ts, t - t0 ≤ 60000) → t10 - t0 ≤ 60000 →
      (runChecks 60000 10 key st (t0 :: (ts ++ [t10]))).1.map Prod.fst
          = List.replicate 10 true ++ [false]
        ∧ lookupEntry (runChecks 60000 10 key st (t0 :: (ts ++ [t10]))).2 key
          = some ⟨10, t0⟩)
    ∧ (∀ (st : LimiterMap) (key : String) (e : RateLimitEntry) (t : Nat),
      lookupEntry st key = some e → t - e.firstRequest > 60000 →
      RateLimiter.check 60000 10 st key t = ⟨true, 9, setEntry st key ⟨1, t⟩⟩) := by
  constructor
  · intro key st t0 ts t10 hnone hlen hw hw10
    have h1 : RateLimiter.check 60000 10 st key t0 = ⟨true, 9, setEntry st key ⟨1, t0⟩⟩ :=
      check_fresh st key t0 hnone
    have hmid := runChecks_allowed ts (setEntry st key ⟨1, t0⟩) key t0 1
      (lookup_setEntry st key _) (Nat.le_refl 1) (by omega)
      hw
    have hmid2 : lookupEntry (runChecks 60000 10 key (setEntry st key ⟨1, t0⟩) ts).2 key
        = some ⟨10, t0⟩ := by
      rw [hmid.2, hlen]
    have hfull : RateLimiter.check 60000 10
        (runChecks 60000 10 key (setEntry st key ⟨1, t0⟩) ts).2 key t10
        = ⟨false, 0, (runChecks 60000 10 key (setEntry st key ⟨1, t0⟩) ts).2⟩ :=
      check_full _ key t10 t0 10 hmid2 (by omega) (Nat.le_refl 10)
    rw [runChecks_cons, h1]
    simp only []
    rw [runChecks_append, runChecks_cons, hfull]
    simp only [runChecks]
    constructor
    · simp only [List.map_cons, List.map_append, hmid.1, hlen, List.map_cons, List.map_nil]
      rfl
    · exact hmid2
  · intro st key e t hl hw
    simp only [RateLimiter.check, hl]
    rw [if_pos hw]

/-- Witness for `rateLimiter_window_behavior` at a fresh key and a stale
entry. -/
theorem rateLimiter_window_behavior_witness :
    ((runChecks 60000 10 "k" [] (0 :: ([1, 2, 3, 4, 5, 6, 7, 8, 9] ++ [10]))).1.map Prod.fst
        = List.replicate 10 true ++ [false]
      ∧ lookupEntry (runChecks 60000 10 "k" []
          (0 :: ([1, 2, 3, 4, 5, 6, 7, 8, 9] ++ [10]))).2 "k" = some ⟨10, 0⟩)
    ∧ RateLimiter.check 60000 10 [("k", ⟨3, 5⟩)] "k" 70000
        = ⟨true, 9, setEntry [("k", ⟨3, 5⟩)] "k" ⟨1, 70000⟩⟩ :=
  ⟨rateLimiter_window_behavior.1 "k" [] 0 [1, 2, 3, 4, 5, 6, 7, 8, 9] 10
      (by decide) (by decide) (by decide) (by decide),
    rateLimiter_window_behavior.2 [("k", ⟨3, 5⟩)] "k" ⟨3, 5⟩ 70000 (by decide) (by decide)⟩

/-- C6: `sendLogs` sends strings of length at most 4000 through the
single-message path and everything else (longer strings as a fresh text
blob, files/blobs as-is) through the document path. -/
theorem sendLogs_path_choice :
    (∀ (chatId s fname : String) (cap : Option String), s.length ≤ 4000 →
      sendLogs chatId (.str s) fname cap
        = .sendMessage chatId (formatMessage cap s) "HTML")
    ∧ (∀ (chatId s fname : String) (cap : Option String), s.length > 4000 →
      sendLogs chatId (.str s) fname cap
        = .sendDocument chatId (.blobOfText s) fname cap)
    ∧ (∀ (chatId : String) (f : FilePart) (fname : String) (cap : Option String),
      sendLogs chatId (.file f) fname cap
        = .sendDocument chatId (.filePart f) fname cap) := by
  refine ⟨?_, ?_, ?_⟩
  · intro chatId s fname cap h
    rw [sendLogs]
    rw [if_pos (by simpa [maxMessageLength] using h)]
  · intro chatId s fname cap h
    rw [sendLogs]
    rw [if_neg (by simp [maxMessageLength]; omega)]
  · intro chatId f fname cap
    rfl

/-- Witness for `sendLogs_path_choice` on a short string, a long string
and a file. -/
theorem sendLogs_path_choice_witness :
    sendLogs "7" (.str "short log") "a.txt" (some "c")
        = .sendMessage "7" (formatMessage (some "c") "short log") "HTML"
    ∧ sendLogs "7" (.str (String.mk (List.replicate 4001 'x'))) "a.txt" none
        = .sendDocument "7" (.blobOfText (String.mk (List.replicate 4001 'x'))) "a.txt" none
    ∧ sendLogs "7" (.file ⟨"app.log", 5⟩) "app.log" none
        = .sendDocument "7" (.filePart ⟨"app.log", 5⟩) "app.log" none :=
  ⟨sendLogs_path_choice.1 "7" "short log" "a.txt" (some "c") (by decide),
    sendLogs_path_choice.2.1 "7" _ "a.txt" none
      (by
        have hl : (String.mk (List.replicate 4001 'x')).length = 4001 :=
          List.length_replicate 4001 'x'
        omega),
    sendLogs_path_choice.2.2 "7" ⟨"app.log", 5⟩ "app.log" none⟩

/-- C9: in the message path only the log body goes through `escapeHtml`;
the caption is interpolated verbatim into the `<b>` wrapper, so a caption
containing `<` reaches the formatted message unescaped. -/
theorem caption_not_escaped :
    (∀ (cap s : String), cap ≠ "" →
      formatMessage (some cap) s
        = "<b>" ++ cap ++ "</b>\n\n<pre>" ++ escapeHtml s ++ "</pre>")
    ∧ escapeHtml "a<b" = "a&lt;b"
    ∧ sendLogs "1" (.str "x") "f.txt" (some "a<b")
        = .sendMessage "1" "<b>a<b</b>\n\n<pre>x</pre>" "HTML" := by
  refine ⟨?_, by decide, by decide⟩
  intro cap s h
  rw [formatMessage, if_neg h]

/-- Witness for `caption_not_escaped` with a caption containing both `&`
and `<`. -/
theorem caption_not_escaped_witness :
    formatMessage (some "a<b&c") "x"
      = "<b>" ++ "a<b&c" ++ "</b>\n\n<pre>" ++ escapeHtml "x" ++ "</pre>" :=
  caption_not_escaped.1 "a<b&c" "x" (by decide)

/-! ## Handler lemmas -/

/-- Characterization of every log entry the handler persists: persistence
only happens when `saveLog` does not throw, and only from the top-level
catch (body parsing threw), the relay-failure branch, the relay-threw
catch, or the success branch; the stored status and error message are
determined by which of these it was. -/
theorem handlePost_saved_spec (env : Env) (req : UploadRequest) (st : LimiterMap)
    (now : Nat) (e : LogRecord) (he : e ∈ (handlePost env req st now).savedLogs) :
    env.saveFails = false
    ∧ ((∃ m, parseBody req.body = .thrown m ∧ e.status = some .failed
          ∧ e.errorMessage = some m ∧ e.contentSize = none)
      ∨ (∃ content fname capOpt csize kind,
          parseBody req.body = .ok content fname capOpt csize kind
          ∧ e.contentSize = some csize
          ∧ ((env.relay = .ok ∧ e.status = some .success ∧ e.errorMessage = none)
            ∨ (∃ d, env.relay = .failed d ∧ e.status = some .failed
                ∧ e.errorMessage = some (orElseStr d "Telegram API error"))
            ∨ (∃ m, env.relay = .thrown m ∧ e.status = some .failed
                ∧ e.errorMessage = some m)))) := by
  simp only [handlePost] at he
  split at he
  · simp at he
  · split at he
    · simp at he
    · simp only [afterGate] at he
      split at he
      · simp at he
      · split at he
        · simp at he
        · split at he
          · rename_i lm rm ks hparse
            simp at he
          · rename_i m hparse
            simp only [catchPath] at he
            split at he
            · simp at he
            · rename_i hsv
              simp at he
              subst he
              exact ⟨by simpa using hsv,
                Or.inl ⟨m, hparse, by simp, by simp, by simp⟩⟩
          · rename_i content fname capOpt csize kind hparse
            simp only [relayAndRespond] at he
            split at he
            · rename_i m hrelay
              simp only [catchPath] at he
              split at he
              · simp at he
              · rename_i hsv
                simp at he
                subst he
                refine ⟨by simpa using hsv, Or.inr ⟨content, fname, capOpt, csize, kind,
                  hparse, by simp, Or.inr (Or.inr ⟨m, hrelay, by simp, by simp⟩)⟩⟩
            · rename_i d hrelay
              split at he
              · simp at he
              · rename_i hsv
                simp at he
                subst he
                refine ⟨by simpa using hsv, Or.inr ⟨content, fname, capOpt, csize, kind,
                  hparse, by simp, Or.inr (Or.inl ⟨d, hrelay, by simp, by simp⟩)⟩⟩
            · rename_i hrelay
              split at he
              · simp at he
              · rename_i hsv
                simp at he
                subst he
                refine ⟨by simpa using hsv, Or.inr ⟨content, fname, capOpt, csize, kind,
                  hparse, by simp, Or.inl ⟨hrelay, by simp, by simp⟩⟩⟩

/-- C2: a persisted LogEntry has status `success` only when the relay
returned `ok: true`; every other persisted outcome is `failed` with the
errorMessage field populated. -/
theorem logEntry_status_invariant (env : Env) (req : UploadRequest) (st : LimiterMap)
    (now : Nat) (e : LogRecord) (he : e ∈ (handlePost env req st now).savedLogs) :
    (e.status = some LogStatus.success ∧ env.relay = RelayOutcome.ok)
    ∨ (e.status = some LogStatus.failed ∧ e.errorMessage.isSome) := by
  obtain ⟨-, h⟩ := handlePost_saved_spec env req st now e he
  rcases h with ⟨m, _, hs, hm, _⟩ | ⟨c, f, co, cs, k, _, _, hrel⟩
  · exact Or.inr ⟨hs, by simp [hm]⟩
  · rcases hrel with ⟨hok, hs, _⟩ | ⟨d, _, hs, hm⟩ | ⟨m, _, hs, hm⟩
    · exact Or.inl ⟨hs, hok⟩
    · exact Or.inr ⟨hs, by simp [hm]⟩
    · exact Or.inr ⟨hs, by simp [hm]⟩

/-- Witness for `logEntry_status_invariant`: the concrete entry persisted
by a successful JSON upload. -/
theorem logEntry_status_invariant_witness :
    ((⟨some "5", some "logs.txt", some ContentKind.text, some 2, some "c", "9",
        none, none, none, none, none, none, some LogStatus.success, none, 0⟩
          : LogRecord).status = some LogStatus.success
      ∧ (⟨true, [], false, RelayOutcome.ok, false, ⟨"9", none, none, none, none, none⟩,
          "T"⟩ : Env).relay = RelayOutcome.ok)
    ∨ ((⟨some "5", some "logs.txt", some ContentKind.text, some 2, some "c", "9",
        none, none, none, none, none, none, some LogStatus.success, none, 0⟩
          : LogRecord).status = some LogStatus.failed
      ∧ (Option.none : Option String).isSome) :=
  logEntry_status_invariant
    ⟨true, [], false, RelayOutcome.ok, false, ⟨"9", none, none, none, none, none⟩, "T"⟩
    ⟨"5", "9", none, .json (some "hi") (some "c") none⟩ [] 0
    ⟨some "5", some "logs.txt", some ContentKind.text, some 2, some "c", "9",
      none, none, none, none, none, none, some LogStatus.success, none, 0⟩
    (by decide)

theorem parseBody_json_not_thrown (t : Option String) (c f : Option String) (m : String) :
    parseBody (.json t c f) ≠ .thrown m := by
  cases t with
  | none => simp [parseBody]
  | some t2 =>
    simp only [parseBody]
    split <;> simp

theorem parseBody_plain_not_thrown (b : String) (m : String) :
    parseBody (.plainText b) ≠ .thrown m := by
  simp only [parseBody]
  split <;> simp

theorem parseBody_form_not_thrown (fo : Option FilePart) (t c f : Option String)
    (m : String) : parseBody (.formData fo t c f) ≠ .thrown m := by
  simp only [parseBody, parseFormData]
  repeat' split
  all_goals simp

theorem parseBody_json_size (t : String) (c f : Option String)
    (content : LogContent) (fname : String) (capOpt : Option String)
    (csize : Nat) (kind : ContentKind)
    (h : parseBody (.json (some t) c f) = .ok content fname capOpt csize kind) :
    csize = t.utf8ByteSize := by
  simp only [parseBody] at h
  split at h
  · exact absurd h (by simp)
  · injection h with h1 h2 h3 h4 h5
    exact h4.symm

theorem parseBody_plain_size (b : String)
    (content : LogContent) (fname : String) (capOpt : Option String)
    (csize : Nat) (kind : ContentKind)
    (h : parseBody (.plainText b) = .ok content fname capOpt csize kind) :
    csize = (sanitizeContentCurrent b).utf8ByteSize := by
  simp only [parseBody] at h
  split at h
  · exact absurd h (by simp)
  · injection h with h1 h2 h3 h4 h5
    exact h4.symm

theorem parseBody_form_text_size (fo : Option FilePart) (t : String) (c f : Option String)
    (content : LogContent) (fname : String) (capOpt : Option String)
    (csize : Nat) (kind : ContentKind)
    (hfo : fo = none ∨ ∃ fp, fo = some fp ∧ fp.size = 0)
    (h : parseBody (.formData fo (some t) c f) = .ok content fname capOpt csize kind) :
    csize = t.utf8ByteSize := by
  have htext : ∀ (fn : String), (if t = "" ∨ jsTrim t = "" then
        ParseResult.reject "No content provided"
          "Either 'file' or 'text' must be provided in the form data" none
      else ParseResult.ok (.str t) fn c t.utf8ByteSize .text)
        = .ok content fname capOpt csize kind → csize = t.utf8ByteSize := by
    intro fn hh
    split at hh
    · exact absurd hh (by simp)
    · injection hh with h1 h2 h3 h4 h5
      exact h4.symm
  rcases hfo with rfl | ⟨fp, rfl, hsz⟩
  · simp only [parseBody, parseFormData] at h
    exact htext _ h
  · simp only [parseBody, parseFormData] at h
    rw [if_neg (by omega : ¬fp.size > 0)] at h
    exact htext _ h

/-- C3 (amended): the persisted `contentSize` is the UTF-8 byte length of
the raw text for JSON and multipart form-text uploads, and of the
sanitized text for `text/plain` uploads (the plain branch sanitizes
before measuring; the JSON branch sanitizes `logContent` but measures
`body.text`). -/
theorem contentSize_measurement (env : Env) (req : UploadRequest) (st : LimiterMap)
    (now : Nat) (e : LogRecord) (he : e ∈ (handlePost env req st now).savedLogs) :
    (∀ t c f, req.body = .json (some t) c f → e.contentSize = some t.utf8ByteSize)
    ∧ (∀ b, req.body = .plainText b →
        e.contentSize = some (sanitizeContentCurrent b).utf8ByteSize)
    ∧ (∀ fo t c f, req.body = .formData fo (some t) c f →
        (fo = none ∨ ∃ fp, fo = some fp ∧ fp.size = 0) →
        e.contentSize = some t.utf8ByteSize) := by
  obtain ⟨-, h⟩ := handlePost_saved_spec env req st now e he
  refine ⟨?_, ?_, ?_⟩
  · intro t c f hb
    rcases h with ⟨m, hm, _⟩ | ⟨content, fname, capOpt, csize, kind, hp, hcs, _⟩
    · rw [hb] at hm
      exact absurd hm (parseBody_json_not_thrown _ _ _ _)
    · rw [hb] at hp
      rw [hcs, parseBody_json_size t c f content fname capOpt csize kind hp]
  · intro b hb
    rcases h with ⟨m, hm, _⟩ | ⟨content, fname, capOpt, csize, kind, hp, hcs, _⟩
    · rw [hb] at hm
      exact absurd hm (parseBody_plain_not_thrown _ _)
    · rw [hb] at hp
      rw [hcs, parseBody_plain_size b content fname capOpt csize kind hp]
  · intro fo t c f hb hfo
    rcases h with ⟨m, hm, _⟩ | ⟨content, fname, capOpt, csize, kind, hp, hcs, _⟩
    · rw [hb] at hm
      exact absurd hm (parseBody_form_not_thrown _ _ _ _ _)
    · rw [hb] at hp
      rw [hcs, parseBody_form_text_size fo t c f content fname capOpt csize kind hfo hp]

/-- Witness for `contentSize_measurement`: a successful JSON upload whose
text a mention-sanitization would lengthen. -/
theorem contentSize_measurement_witness :
    RequestBody.json (some "see @abcdef ok") none none
        = RequestBody.json (some "see @abcdef ok") none none
    ∧ (⟨some "5", some "logs.txt", some ContentKind.text, some 14,
        some "Log received at T", "9",
        none, none, none, none, none, none, some LogStatus.success, none, 0⟩
          : LogRecord).contentSize = some ("see @abcdef ok" : String).utf8ByteSize := by
  refine ⟨rfl, ?_⟩
  have h := (contentSize_measurement
    ⟨true, [], false, RelayOutcome.ok, false, ⟨"9", none, none, none, none, none⟩, "T"⟩
    ⟨"5", "9", none, .json (some "see @abcdef ok") none none⟩ [] 0
    ⟨some "5", some "logs.txt", some ContentKind.text, some 14,
      some "Log received at T", "9",
      none, none, none, none, none, none, some LogStatus.success, none, 0⟩
    (by decide)).1 "see @abcdef ok" none none rfl
  exact h

/-- C3 (counterexample to the claim as stated): the JSON branch persists
the raw byte length, not the sanitized one, and the plain-text branch
persists the sanitized byte length, not the raw one. -/
theorem contentSize_claim_counterexample :
    ((handlePost
        ⟨true, [], false, RelayOutcome.ok, false, ⟨"9", none, none, none, none, none⟩, "T"⟩
        ⟨"5", "9", none, .json (some "see @abcdef ok") none none⟩ [] 0).savedLogs.map
          (fun x => x.contentSize) = [some 14]
      ∧ ("see @abcdef ok" : String).utf8ByteSize = 14
      ∧ (sanitizeContentCurrent "see @abcdef ok").utf8ByteSize = 24
      ∧ (14 : Nat) ≠ 24)
    ∧ ((handlePost
        ⟨true, [], false, RelayOutcome.ok, false, ⟨"9", none, none, none, none, none⟩, "T"⟩
        ⟨"5", "9", none, .plainText "hi @abcdef z"⟩ [] 0).savedLogs.map
          (fun x => x.contentSize) = [some 22]
      ∧ (sanitizeContentCurrent "hi @abcdef z").utf8ByteSize = 22
      ∧ ("hi @abcdef z" : String).utf8ByteSize = 12
      ∧ (22 : Nat) ≠ 12) := by
  constructor
  · exact ⟨by decide, by decide, by decide, by decide⟩
  · exact ⟨by decide, by decide, by decide, by decide⟩

/-- C4 (amended): a 400 response never persists a LogEntry; the handler
only marks the in-memory record failed with the rejection reason and
returns. -/
theorem input_error_not_persisted (env : Env) (req : UploadRequest) (st : LimiterMap)
    (now : Nat) :
    (handlePost env req st now).response.status = 400 →
      (handlePost env req st now).savedLogs = []
      ∧ ∃ lg, (handlePost env req st now).finalLog = some lg
          ∧ lg.status = some LogStatus.failed ∧ lg.errorMessage.isSome := by
  simp only [handlePost]
  split
  · intro h
    simp at h
  · split
    · intro h
      simp at h
    · simp only [afterGate]
      split
      · intro h
        simp at h
      · split
        · intro _
          exact ⟨rfl, ⟨_, rfl, by simp, by simp⟩⟩
        · split
          · intro _
            exact ⟨rfl, ⟨_, rfl, by simp, by simp⟩⟩
          · simp only [catchPath]
            intro h
            simp at h
          · simp only [relayAndRespond]
            split
            · simp only [catchPath]
              intro h
              simp at h
            · intro h
              simp at h
            · intro h
              simp at h

/-- Witness for `input_error_not_persisted`: an oversized multipart file
upload. -/
theorem input_error_not_persisted_witness :
    (handlePost
        ⟨true, [], false, RelayOutcome.ok, false, ⟨"9", none, none, none, none, none⟩, "T"⟩
        ⟨"123", "9", none,
          .formData (some ⟨"app.log", 18 * 1024 * 1024 + 1⟩) none none none⟩ [] 0).savedLogs
        = []
    ∧ ∃ lg, (handlePost
        ⟨true, [], false, RelayOutcome.ok, false, ⟨"9", none, none, none, none, none⟩, "T"⟩
        ⟨"123", "9", none,
          .formData (some ⟨"app.log", 18 * 1024 * 1024 + 1⟩) none none none⟩ [] 0).finalLog
          = some lg
        ∧ lg.status = some LogStatus.failed ∧ lg.errorMessage.isSome :=
  input_error_not_persisted
    ⟨true, [], false, RelayOutcome.ok, false, ⟨"9", none, none, none, none, none⟩, "T"⟩
    ⟨"123", "9", none, .formData (some ⟨"app.log", 18 * 1024 * 1024 + 1⟩) none none none⟩
    [] 0 (by decide)

/-- C4 (counterexample to the claim as stated): an oversized file with a
known chat id yields 400 with the reason recorded only in memory; nothing
is persisted. -/
theorem input_error_persisted_counterexample :
    (handlePost
        ⟨true, [], false, RelayOutcome.ok, false, ⟨"9", none, none, none, none, none⟩, "T"⟩
        ⟨"123", "9", none,
          .formData (some ⟨"app.log", 18 * 1024 * 1024 + 1⟩) none none none⟩ [] 0).response
        = ⟨400, false, "Invalid request", some "File size exceeds 18MB limit"⟩
    ∧ (handlePost
        ⟨true, [], false, RelayOutcome.ok, false, ⟨"9", none, none, none, none, none⟩, "T"⟩
        ⟨"123", "9", none,
          .formData (some ⟨"app.log", 18 * 1024 * 1024 + 1⟩) none none none⟩ [] 0).savedLogs
        = [] := by
  exact ⟨by decide, by decide⟩

/-- C8: when the relay answered `ok: true`, the client still gets the 200
success response even when `saveLog` throws — the audit record is simply
lost. -/
theorem success_despite_save_failure (env : Env) (req : UploadRequest) (st : LimiterMap)
    (now : Nat) (hok : env.relay = RelayOutcome.ok)
    (hr : reachesRelay env req st now = true) :
    (handlePost { env with saveFails := true } req st now).response
        = ⟨200, true, "Logs sent successfully to Telegram", none⟩
    ∧ (handlePost { env with saveFails := true } req st now).savedLogs = [] := by
  simp only [reachesRelay, Bool.and_eq_true] at hr
  obtain ⟨⟨⟨⟨h1, h2⟩, h3⟩, h4⟩, h5⟩ := hr
  have hcontains : env.blockedIps.contains req.ip = false := by simpa using h2
  have hmem : req.ip ∉ env.blockedIps := by simpa using hcontains
  have hchat : ¬(req.chatId = "" ∨ jsTrim req.chatId = "") := by simpa using h4
  rcases hp : parseBody req.body with ⟨content, fname, capOpt, csize, kind⟩ | ⟨lm, rm, ks⟩ | m
  · simp [handlePost, afterGate, relayAndRespond, h1, hcontains, hmem, h3, hchat, hp, hok]
  · rw [hp] at h5
    simp at h5
  · rw [hp] at h5
    simp at h5

/-- Witness for `success_despite_save_failure` on a valid JSON upload. -/
theorem success_despite_save_failure_witness :
    (handlePost
        { (⟨true, [], false, RelayOutcome.ok, false,
            ⟨"9", none, none, none, none, none⟩, "T"⟩ : Env) with saveFails := true }
        ⟨"5", "9", none, .json (some "hi") (some "c") none⟩ [] 0).response
        = ⟨200, true, "Logs sent successfully to Telegram", none⟩
    ∧ (handlePost
        { (⟨true, [], false, RelayOutcome.ok, false,
            ⟨"9", none, none, none, none, none⟩, "T"⟩ : Env) with saveFails := true }
        ⟨"5", "9", none, .json (some "hi") (some "c") none⟩ [] 0).savedLogs = [] :=
  success_despite_save_failure
    ⟨true, [], false, RelayOutcome.ok, false, ⟨"9", none, none, none, none, none⟩, "T"⟩
    ⟨"5", "9", none, .json (some "hi") (some "c") none⟩ [] 0 rfl (by decide)

/-- C10: the rate-limit check runs before the blocked-IP lookup, so a
blocked IP with an exhausted window gets 429 rather than 403, and an
allowed request from a blocked IP still increments its counter before the
403 is returned. -/
theorem rate_limit_before_ip_block (env : Env) (req : UploadRequest) (st : LimiterMap)
    (now : Nat) (hb : env.blockedIps.contains req.ip = true) :
    ((RateLimiter.check 60000 10 st req.ip now).allowed = false →
      (handlePost env req st now).response.status = 429)
    ∧ ((RateLimiter.check 60000 10 st req.ip now).allowed = true →
      (handlePost env req st now).response.status = 403
      ∧ (handlePost env req st now).limiter = (RateLimiter.check 60000 10 st req.ip now).state)
    ∧ (∀ e, lookupEntry st req.ip = some e → e.count < 10 →
        ¬now - e.firstRequest > 60000 →
        lookupEntry (handlePost env req st now).limiter req.ip
          = some ⟨e.count + 1, e.firstRequest⟩) := by
  have hmem : req.ip ∈ env.blockedIps := by simpa using hb
  refine ⟨?_, ?_, ?_⟩
  · intro h
    simp [handlePost, h]
  · intro h
    constructor
    · simp [handlePost, h, hb, hmem]
    · simp [handlePost, h, hb, hmem]
  · intro e hl hc hw
    have hch := check_within_incr st req.ip now e.firstRequest e.count hl hw hc
    have hall : (RateLimiter.check 60000 10 st req.ip now).allowed = true := by
      rw [hch]
    simp only [handlePost, hall, Bool.not_true, Bool.false_eq_true, if_false, hb, if_true]
    rw [hch]
    exact lookup_setEntry st req.ip _

/-- Witness for `rate_limit_before_ip_block` for a blocked IP with an
exhausted window and one with remaining quota. -/
theorem rate_limit_before_ip_block_witness :
    ((RateLimiter.check 60000 10 [("9", ⟨10, 0⟩)] "9" 5).allowed = false →
      (handlePost
        ⟨true, ["9"], false, RelayOutcome.ok, false, ⟨"9", none, none, none, none, none⟩, "T"⟩
        ⟨"5", "9", none, .json (some "hi") none none⟩ [("9", ⟨10, 0⟩)] 5).response.status
        = 429)
    ∧ ((RateLimiter.check 60000 10 [("9", ⟨10, 0⟩)] "9" 5).allowed = true →
      (handlePost
        ⟨true, ["9"], false, RelayOutcome.ok, false, ⟨"9", none, none, none, none, none⟩, "T"⟩
        ⟨"5", "9", none, .json (some "hi") none none⟩ [("9", ⟨10, 0⟩)] 5).response.status
        = 403
      ∧ (handlePost
        ⟨true, ["9"], false, RelayOutcome.ok, false, ⟨"9", none, none, none, none, none⟩, "T"⟩
        ⟨"5", "9", none, .json (some "hi") none none⟩ [("9", ⟨10, 0⟩)] 5).limiter
        = (RateLimiter.check 60000 10 [("9", ⟨10, 0⟩)] "9" 5).state)
    ∧ (∀ e, lookupEntry [("9", ⟨10, 0⟩)] "9" = some e → e.count < 10 →
        ¬(5 : Nat) - e.firstRequest > 60000 →
        lookupEntry (handlePost
          ⟨true, ["9"], false, RelayOutcome.ok, false, ⟨"9", none, none, none, none, none⟩, "T"⟩
          ⟨"5", "9", none, .json (some "hi") none none⟩ [("9", ⟨10, 0⟩)] 5).limiter "9"
          = some ⟨e.count + 1, e.firstRequest⟩) :=
  rate_limit_before_ip_block
    ⟨true, ["9"], false, RelayOutcome.ok, false, ⟨"9", none, none, none, none, none⟩, "T"⟩
    ⟨"5", "9", none, .json (some "hi") none none⟩ [("9", ⟨10, 0⟩)] 5 (by decide)

/-- C1: the upload handler never consults the stored panic-mode flag —
its result is invariant under changing `panicMode`, and with panic mode
enabled a valid upload is still relayed and answered 200. -/
theorem panic_mode_not_enforced :
    (∀ (env : Env) (req : UploadRequest) (st : LimiterMap) (now : Nat) (b : Bool),
      handlePost { env with panicMode := b } req st now = handlePost env req st now)
    ∧ (⟨true, [], true, RelayOutcome.ok, false, ⟨"203.0.113.5", none, none, none, none, none⟩,
        "T"⟩ : Env).panicMode = true
    ∧ (handlePost
        ⟨true, [], true, RelayOutcome.ok, false, ⟨"203.0.113.5", none, none, none, none, none⟩,
          "T"⟩
        ⟨"123", "203.0.113.5", none, .json (some "hello") (some "cap") none⟩ [] 0).response
        = ⟨200, true, "Logs sent successfully to Telegram", none⟩
    ∧ (handlePost
        ⟨true, [], true, RelayOutcome.ok, false, ⟨"203.0.113.5", none, none, none, none, none⟩,
          "T"⟩
        ⟨"123", "203.0.113.5", none, .json (some "hello") (some "cap") none⟩ [] 0).savedLogs.map
          (fun e => e.status) = [some LogStatus.success] := by
  refine ⟨?_, rfl, by decide, by decide⟩
  intro env req st now b
  cases env
  rfl

/-- Witness for `panic_mode_not_enforced` (its quantified part, at a
concrete environment and request). -/
theorem panic_mode_not_enforced_witness :
    handlePost
        { (⟨true, [], false, RelayOutcome.ok, false, ⟨"9", none, none, none, none, none⟩,
            "T"⟩ : Env) with panicMode := true }
        ⟨"5", "9", none, .json (some "hi") none none⟩ [] 0
      = handlePost
        ⟨true, [], false, RelayOutcome.ok, false, ⟨"9", none, none, none, none, none⟩, "T"⟩
        ⟨"5", "9", none, .json (some "hi") none none⟩ [] 0 :=
  panic_mode_not_enforced.1
    ⟨true, [], false, RelayOutcome.ok, false, ⟨"9", none, none, none, none, none⟩, "T"⟩
    ⟨"5", "9", none, .json (some "hi") none none⟩ [] 0 true

/-- C7 (amended): the older `sanitizeContent` is idempotent; it rewrites
the input by a leftmost scan that replaces every URL-regex match with
exactly `[LINK REMOVED]` and every `@` followed by one-or-more word
characters with exactly `[MENTION REMOVED]`, copying every other
character through in order. -/
theorem sanitizeContent_spec :
    (∀ s, sanitizeContent (sanitizeContent s) = sanitizeContent s)
    ∧ (∀ c rest n, matchUrlAt (c :: rest) = some n →
        urlScan (c :: rest) = linkRemoved ++ urlScan (rest.drop (n - 1)))
    ∧ (∀ c rest, matchUrlAt (c :: rest) = none →
        urlScan (c :: rest) = c :: urlScan rest)
    ∧ (∀ c rest k, matchMentionAt (c :: rest) = some k →
        mentionScan (c :: rest) = mentionRemoved ++ mentionScan (rest.drop (k - 1)))
    ∧ (∀ c rest, matchMentionAt (c :: rest) = none →
        mentionScan (c :: rest) = c :: mentionScan rest)
    ∧ (∀ s, s.isEmpty = false →
        sanitizeContent s = String.mk (mentionScan (urlScan s.data))) :=
  ⟨sanitizeContent_idem,
    fun c rest n h => scanRepl_cons_some matchUrlAt linkRemoved c rest n h,
    fun c rest h => scanRepl_cons_none matchUrlAt linkRemoved c rest h,
    fun c rest k h => scanRepl_cons_some matchMentionAt mentionRemoved c rest k h,
    fun c rest h => scanRepl_cons_none matchMentionAt mentionRemoved c rest h,
    fun s hs => by rw [sanitizeContent, if_neg (by simp [hs])]⟩

/-- Witness for `sanitizeContent_spec` at concrete inputs. -/
theorem sanitizeContent_spec_witness :
    sanitizeContent (sanitizeContent "go www.a b to x.y.zz")
        = sanitizeContent "go www.a b to x.y.zz"
    ∧ urlScan ('w' :: "ww.a b".data) = linkRemoved ++ urlScan (("ww.a b".data).drop 4)
    ∧ mentionScan ('x' :: "yz".data) = 'x' :: mentionScan "yz".data
    ∧ sanitizeContent "abc" = String.mk (mentionScan (urlScan "abc".data)) :=
  ⟨sanitizeContent_spec.1 "go www.a b to x.y.zz",
    sanitizeContent_spec.2.1 'w' "ww.a b".data 5 (by decide),
    sanitizeContent_spec.2.2.2.2.1 'x' "yz".data (by decide),
    sanitizeContent_spec.2.2.2.2.2 "abc" (by decide)⟩

/-- C7 (counterexample to the claim as stated): the older variant's
mention regex is `@[\w\d_]+`, not `@` plus three-or-more word characters,
so a two-character mention — which the claim says is preserved — is in
fact replaced. -/
theorem sanitizeContent_mention_counterexample :
    sanitizeContent "@ab" = "[MENTION REMOVED]" ∧ sanitizeContent "@ab" ≠ "@ab" :=
  ⟨by decide, by decide⟩
